import Mathlib

/-!
Shallow embedding of the BMP image-processing code (src/bmp8.c, src/bmp24.c)
of the ImageProcessingSimonHillel repository, together with proofs about the
properties its specification claims.

Modelling conventions, used throughout:
* C `unsigned char` samples are `Nat`; the unsigned-char typing invariant
  (value < 256) is carried as an explicit well-formedness hypothesis where a
  theorem needs it.
* C `unsigned int` arithmetic that can wrap is modelled with explicit
  `% 2 ^ 32`; subtraction of unsigned ints is `usub` below.
* C `float`/`double` arithmetic inside the filter and histogram code is
  modelled exactly over `ℚ`; C `round` (round half away from zero) is
  `cround`, C float-to-int truncation toward zero is `ctrunc`.
* Files are byte lists; a byte missing from the file (a read past the end of
  the file, which the C code only reports with `printf` and then keeps the
  previous, unspecified buffer contents) is modelled as reading 0.
* Reads of a pixel buffer at a flat index outside the allocation (possible in
  `bmp8_applyFilter` for kernels wider than 3, where they are undefined
  behaviour in C) are modelled as yielding 0; the theorems and concrete
  inputs below are arranged so that no conclusion depends on that choice at
  the cells whose values they mention.
* An in-place C procedure `void f(t_bmp8 *img)` becomes a function
  `Bmp8 → Bmp8` returning the updated structure.
-/

/-- Applies f to the first n elements of a list and keeps the rest: the
effect of the C loop `for (i = 0; i < n; i++) a[i] = f(a[i]);` on a buffer
holding the list (when n exceeds the allocation the C loop runs out of
bounds; the model simply stops at the end of the list). -/
def mapUpTo (f : α → α) : Nat → List α → List α
  | _, [] => []
  | 0, l => l
  | n + 1, a :: l => f a :: mapUpTo f n l

/-- Row-major list of (row, column) pairs visited by a C double loop
`for y in ys { for x in xs { ... } }`. -/
def loopPairs (ys xs : List Nat) : List (Nat × Nat) :=
  ys.flatMap fun y => xs.map fun x => (y, x)

/-- Reads a flat byte buffer at a signed index, as `tempData[i]` does in
`bmp8_applyFilter` (out-of-range indices, undefined behaviour in C, read 0
in the model). -/
def getFlat (l : List Nat) (i : Int) : Nat :=
  if 0 ≤ i then l.getD i.toNat 0 else 0

/-- Kernel entry `kernel[ky][kx]` (float matrix modelled over ℚ). -/
def kernelAt (kernel : List (List ℚ)) (ky kx : Nat) : ℚ :=
  (kernel.getD ky []).getD kx 0

/-- C `round` on a double: round half away from zero. -/
def cround (q : ℚ) : Int :=
  if 0 ≤ q then ⌊q + 1 / 2⌋ else -⌊-q + 1 / 2⌋

/-- C cast of a float to int: truncation toward zero. -/
def ctrunc (q : ℚ) : Int :=
  if 0 ≤ q then ⌊q⌋ else -⌊-q⌋

/-- The clamp in `bmp8_applyFilter`: `result = (int)sum;` then clamp to
[0, 255]. -/
def clampTrunc (q : ℚ) : Nat :=
  let r := ctrunc q
  if 255 < r then 255 else if r < 0 then 0 else r.toNat

/-- The helper `clamp_uint8` of bmp24.c: values above 255 map to 255, values
below 0 map to 0, and the rest are rounded with C `round`. -/
def clamp_uint8 (q : ℚ) : Nat :=
  if 255 < q then 255 else if q < 0 then 0 else (cround q).toNat

/-- The transformation the spec describes for convolution output: round to
nearest, then clamp to [0, 255]. -/
def clampRoundSpec (q : ℚ) : Nat :=
  (min 255 (max 0 (cround q))).toNat

/-- C subtraction of two `unsigned int` values (wrap-around modulo 2^32). -/
def usub (a b : Nat) : Nat :=
  (a + 2 ^ 32 - b % 2 ^ 32) % 2 ^ 32

/-- The C struct t_bmp8 of bmp8.h: header and color table are byte blobs,
data is the flat pixel buffer. -/
structure Bmp8 where
  header : List Nat
  colorTable : List Nat
  data : List Nat
  width : Nat
  height : Nat
  colorDepth : Nat
  dataSize : Nat
deriving DecidableEq

/-- Well-formedness invariant of a loaded 8-bit image: the buffer holds
exactly dataSize bytes and every sample fits in an unsigned char. -/
def Bmp8.wf (img : Bmp8) : Prop :=
  img.dataSize = img.data.length ∧ ∀ v ∈ img.data, v < 256

instance (img : Bmp8) : Decidable img.wf := by
  unfold Bmp8.wf; infer_instance

/-- bmp8_negative of bmp8.c: `data[i] = 255 - data[i]` for i < dataSize. -/
def bmp8_negative (img : Bmp8) : Bmp8 :=
  { img with data := mapUpTo (fun v => 255 - v) img.dataSize img.data }

/-- Per-sample body of bmp8_brightness: `newValue = data[i] + value` in int
arithmetic, clamped to [0, 255] before the store back to unsigned char. -/
def brightnessSample (value : Int) (v : Nat) : Nat :=
  let newValue : Int := v + value
  if 255 < newValue then 255 else if newValue < 0 then 0 else newValue.toNat

/-- bmp8_brightness of bmp8.c: add value (an int) to each sample and clamp
to [0, 255]. -/
def bmp8_brightness (img : Bmp8) (value : Int) : Bmp8 :=
  { img with data := mapUpTo (brightnessSample value) img.dataSize img.data }

/-- bmp8_threshold of bmp8.c: `data[i] = (data[i] >= threshold) ? 255 : 0`.
The unsigned char sample is promoted to int, so the comparison is a genuine
signed comparison against the int threshold. -/
def thresholdSample (threshold : Int) (v : Nat) : Nat :=
  if threshold ≤ (v : Int) then 255 else 0

/-- bmp8_threshold of bmp8.c applied to the whole buffer. -/
def bmp8_threshold (img : Bmp8) (threshold : Int) : Bmp8 :=
  { img with data := mapUpTo (thresholdSample threshold) img.dataSize img.data }

/-- The inner double sum of bmp8_applyFilter at pixel (x, y):
`sum += tempData[(y+ky)*width + (x+kx)] * kernel[ky+n][kx+n]` for
ky, kx running from -n to n (indexed here by ky0 = ky+n, kx0 = kx+n). -/
def convSum8 (temp : List Nat) (width : Nat) (x y : Nat)
    (kernel : List (List ℚ)) (n : Nat) : ℚ :=
  (List.range (2 * n + 1)).foldl (fun acc (ky0 : Nat) =>
    (List.range (2 * n + 1)).foldl (fun acc2 (kx0 : Nat) =>
      acc2 + (getFlat temp
          (((y : Int) + (ky0 : Int) - (n : Int)) * (width : Int)
            + ((x : Int) + (kx0 : Int) - (n : Int))) : ℚ)
        * kernelAt kernel ky0 kx0) acc) 0

/-- bmp8_applyFilter of bmp8.c. Even kernel sizes are rejected; otherwise
the code snapshots the buffer and, for every y from 1 to height-2 and x from
1 to width-2 (a fixed one-pixel border, independent of the kernel
half-width n), stores the truncated and clamped kernel sum at flat index
y*width + x. The row-major double loop is the fold over loopPairs. -/
def bmp8_applyFilter (img : Bmp8) (kernel : List (List ℚ)) (kernelSize : Nat) :
    Bmp8 :=
  if kernelSize % 2 = 0 then img
  else
    let n := kernelSize / 2
    let temp := img.data
    let newData :=
      (loopPairs (List.range' 1 (img.height - 1 - 1))
          (List.range' 1 (img.width - 1 - 1))).foldl
        (fun d p =>
          d.set (p.1 * img.width + p.2)
            (clampTrunc (convSum8 temp img.width p.2 p.1 kernel n)))
        img.data
    { img with data := newData }

/-- bmp8_computeHistogram of bmp8.c: one pass over the first dataSize bytes
of the buffer, incrementing the bucket of each sample. -/
def bmp8_computeHistogram (img : Bmp8) : List Nat :=
  (img.data.take img.dataSize).foldl
    (fun h v => h.set v (h.getD v 0 + 1)) (List.replicate 256 0)

/-- Running inclusive sums of a list starting from acc: models the C loop
`cdf[0] = hist[0]; cdf[i] = cdf[i-1] + hist[i];`. -/
def partialSums : List Nat → Nat → List Nat
  | [], _ => []
  | h :: t, acc => (acc + h) :: partialSums t (acc + h)

/-- The first nonzero value of the cdf (`cdf_min` in bmp8_computeCDF; 0 when
every entry is zero). -/
def firstPositive (l : List Nat) : Nat :=
  (l.find? fun c => decide (0 < c)).getD 0

/-- bmp8_computeCDF of bmp8.c (the two-argument version that the file
defines). Returns none where the C function returns NULL (numPixels == 0).
When numPixels - cdf_min == 0 in unsigned arithmetic it returns the identity
table; otherwise entry i is round((cdf[i]-cdf_min) * (255/(numPixels-cdf_min)))
clamped at 255, or 0 when cdf[i] == 0. The double arithmetic is modelled
exactly over ℚ. -/
def bmp8_computeCDF (hist : List Nat) (numPixels : Nat) : Option (List Nat) :=
  if numPixels = 0 then none
  else
    let cdf := partialSums hist 0
    let cdfMin := firstPositive cdf
    if usub numPixels cdfMin = 0 then
      some (List.range 256)
    else
      some ((List.range 256).map fun i =>
        let c := cdf.getD i 0
        if c = 0 then 0
        else
          let v := (cround ((usub c cdfMin : ℚ)
            * (255 / (usub numPixels cdfMin : ℚ)))).toNat
          if 255 < v then 255 else v)

/-- bmp8_equalize of bmp8.c: computes numPixels = width*height (unsigned
multiplication), bails out on zero, builds the histogram and the remap table,
and maps every sample through the table (the store casts to unsigned char,
hence the % 256). -/
def bmp8_equalize (img : Bmp8) : Bmp8 :=
  let numPixels := img.width * img.height % 2 ^ 32
  if numPixels = 0 then img
  else
    match bmp8_computeCDF (bmp8_computeHistogram img) numPixels with
    | none => img
    | some table =>
        let newData := mapUpTo (fun v => table.getD v 0 % 256) img.dataSize img.data
        { img with data := newData }

/-- The C struct t_pixel of bmp24.h: one 24-bit pixel in struct field order
blue, green, red (the on-disk BGR order). -/
structure Pixel where
  blue : Nat
  green : Nat
  red : Nat
deriving DecidableEq

/-- The C struct t_bmp_header of bmp24.h (BITMAPFILEHEADER fields). -/
structure BmpHeader where
  type : Nat
  size : Nat
  reserved1 : Nat
  reserved2 : Nat
  offset : Nat
deriving DecidableEq

/-- The C struct t_bmp_info of bmp24.h (BITMAPINFOHEADER fields; width,
height and the resolutions are signed 32-bit ints). -/
structure BmpInfo where
  size : Nat
  width : Int
  height : Int
  planes : Nat
  bits : Nat
  compression : Nat
  imagesize : Nat
  xresolution : Int
  yresolution : Int
  ncolors : Nat
  importantcolors : Nat
deriving DecidableEq

/-- The C struct t_bmp24 of bmp24.h. The pixel data is the 2D row-major
buffer data[y][x], rows stored top-to-bottom in memory. -/
structure Bmp24 where
  header : BmpHeader
  header_info : BmpInfo
  width : Int
  height : Int
  colorDepth : Int
  data : List (List Pixel)
deriving DecidableEq

/-- Well-formedness of an in-memory 24-bit image as bmp24_allocate produces
it: height rows of width pixels each, every channel an unsigned char. -/
def Bmp24.wf (img : Bmp24) : Prop :=
  img.data.length = img.height.toNat ∧
  (∀ row ∈ img.data, row.length = img.width.toNat) ∧
  ∀ row ∈ img.data, ∀ p ∈ row, p.blue < 256 ∧ p.green < 256 ∧ p.red < 256

instance (img : Bmp24) : Decidable img.wf := by
  unfold Bmp24.wf; infer_instance

/-- Per-pixel body of bmp24_negative. -/
def negativePixel (p : Pixel) : Pixel :=
  ⟨255 - p.blue, 255 - p.green, 255 - p.red⟩

/-- bmp24_negative of bmp24.c: the double loop over y < height, x < width
complementing every channel of data[y][x]. -/
def bmp24_negative (img : Bmp24) : Bmp24 :=
  let newData :=
    mapUpTo (fun row => mapUpTo negativePixel img.width.toNat row)
      img.height.toNat img.data
  { img with data := newData }

/-- Per-pixel body of bmp24_grayscale: the three channels are replaced by
(red + green + blue) / 3 in unsigned integer arithmetic (truncating). -/
def grayscalePixel (p : Pixel) : Pixel :=
  let gray := (p.red + p.green + p.blue) / 3
  ⟨gray, gray, gray⟩

/-- bmp24_grayscale of bmp24.c. -/
def bmp24_grayscale (img : Bmp24) : Bmp24 :=
  let newData :=
    mapUpTo (fun row => mapUpTo grayscalePixel img.width.toNat row)
      img.height.toNat img.data
  { img with data := newData }

/-- Per-pixel body of bmp24_brightness: each channel plus value in int
arithmetic, clamped to [0, 255]. -/
def brightnessPixel (value : Int) (p : Pixel) : Pixel :=
  ⟨brightnessSample value p.blue, brightnessSample value p.green,
    brightnessSample value p.red⟩

/-- bmp24_brightness of bmp24.c. -/
def bmp24_brightness (img : Bmp24) (value : Int) : Bmp24 :=
  let newData :=
    mapUpTo (fun row => mapUpTo (brightnessPixel value) img.width.toNat row)
      img.height.toNat img.data
  { img with data := newData }

/-- Reads tempData[y][x] in the 2D pixel buffer (indices outside the
allocation, undefined behaviour in C, read the zero pixel in the model). -/
def getPix (d : List (List Pixel)) (y x : Int) : Pixel :=
  if 0 ≤ y ∧ 0 ≤ x then (d.getD y.toNat []).getD x.toNat ⟨0, 0, 0⟩ else ⟨0, 0, 0⟩

/-- Writes img->data[y][x] in the 2D pixel buffer (out-of-range writes,
undefined behaviour in C, are dropped). -/
def setPix (d : List (List Pixel)) (y x : Nat) (v : Pixel) : List (List Pixel) :=
  d.set y ((d.getD y []).set x v)

/-- The channel sums of bmp24_applyFilter at pixel (x, y): for ky, kx from
-n to n (indexed by ky0 = ky+n, kx0 = kx+n), neighbor = tempData[y+ky][x+kx]
and each channel accumulates neighbor.channel * kernel[ky0][kx0]. The result
triple is (sum_blue, sum_green, sum_red). -/
def convSum24 (temp : List (List Pixel)) (x y : Nat)
    (kernel : List (List ℚ)) (n : Nat) : ℚ × ℚ × ℚ :=
  (List.range (2 * n + 1)).foldl (fun acc (ky0 : Nat) =>
    (List.range (2 * n + 1)).foldl (fun acc2 (kx0 : Nat) =>
      let neighbor := getPix temp ((y : Int) + (ky0 : Int) - (n : Int))
        ((x : Int) + (kx0 : Int) - (n : Int))
      let kv := kernelAt kernel ky0 kx0
      (acc2.1 + (neighbor.blue : ℚ) * kv, acc2.2.1 + (neighbor.green : ℚ) * kv,
        acc2.2.2 + (neighbor.red : ℚ) * kv)) acc) (0, 0, 0)

/-- The pixel bmp24_applyFilter stores at (x, y): each channel sum clamped
through clamp_uint8. -/
def filteredPixel (temp : List (List Pixel)) (x y : Nat)
    (kernel : List (List ℚ)) (n : Nat) : Pixel :=
  let s := convSum24 temp x y kernel n
  ⟨clamp_uint8 s.1, clamp_uint8 s.2.1, clamp_uint8 s.2.2⟩

/-- bmp24_applyFilter of bmp24.c. Even kernel sizes are rejected; otherwise
the buffer is snapshotted and for every y from n to height-n-1 and x from n
to width-n-1 the clamped kernel sums are stored at data[y][x]. The row-major
double loop is the fold over loopPairs. -/
def bmp24_applyFilter (img : Bmp24) (kernel : List (List ℚ)) (kernelSize : Nat) :
    Bmp24 :=
  if kernelSize % 2 = 0 then img
  else
    let n := kernelSize / 2
    let temp := img.data
    let newData :=
      (loopPairs (List.range' n (img.height - 2 * n).toNat)
          (List.range' n (img.width - 2 * n).toNat)).foldl
        (fun d p => setPix d p.1 p.2 (filteredPixel temp p.2 p.1 kernel n))
        img.data
    { img with data := newData }

/-- Little-endian 16-bit read of a file byte list at a byte position. -/
def readU16 (file : List Nat) (pos : Nat) : Nat :=
  file.getD pos 0 + 256 * file.getD (pos + 1) 0

/-- Little-endian 32-bit read of a file byte list at a byte position. -/
def readU32 (file : List Nat) (pos : Nat) : Nat :=
  file.getD pos 0 + 256 * file.getD (pos + 1) 0
    + 2 ^ 16 * file.getD (pos + 2) 0 + 2 ^ 24 * file.getD (pos + 3) 0

/-- Little-endian signed 32-bit read (two's complement). -/
def readI32 (file : List Nat) (pos : Nat) : Int :=
  let u := readU32 file pos
  if u < 2 ^ 31 then (u : Int) else (u : Int) - 2 ^ 32

/-- Little-endian 16-bit encoding of an unsigned value. -/
def u16le (v : Nat) : List Nat :=
  [v % 256, v / 256 % 256]

/-- Little-endian 32-bit encoding of an unsigned value. -/
def u32le (v : Nat) : List Nat :=
  [v % 256, v / 256 % 256, v / 2 ^ 16 % 256, v / 2 ^ 24 % 256]

/-- Little-endian 32-bit encoding of a signed value (two's complement). -/
def i32le (v : Int) : List Nat :=
  u32le (v % 2 ^ 32).toNat

/-- Writes one byte at an absolute position of a file opened for writing;
positions beyond the current end of the file leave a zero-filled gap, as a
hole in a freshly created file reads back as zeros. -/
def writeByte (file : List Nat) (pos b : Nat) : List Nat :=
  if pos < file.length then file.set pos b
  else file ++ List.replicate (pos - file.length) 0 ++ [b]

/-- Writes a byte string at an absolute position (file_rawWrite: fseek to
the position, then sequential writes). -/
def writeBytes (file : List Nat) (pos : Nat) : List Nat → List Nat
  | [] => file
  | b :: rest => writeBytes (writeByte file pos b) (pos + 1) rest

/-- The row stride of a 24-bit image on disk: `(width*3 + 3) & ~3` in C,
which for a nonnegative operand clears the two low bits. -/
def rowPadded24 (width : Int) : Int :=
  let t := width * 3 + 3
  t - t % 4

/-- The three bytes of one pixel as fwrite emits the packed t_pixel struct
(blue, green, red; the stores into uint8_t reduce modulo 256). -/
def pixelBytes (p : Pixel) : List Nat :=
  [p.blue % 256, p.green % 256, p.red % 256]

/-- The byte string bmp24_writePixelData emits starting at the data offset:
rows written bottom-up (y from height-1 down to 0), each row the packed BGR
triples of data[y] followed by the zero padding bytes. -/
def pixelDataBytes (data : List (List Pixel)) (width : Int) (height : Nat) :
    List Nat :=
  (List.range height).reverse.flatMap fun y =>
    ((data.getD y []).take width.toNat).flatMap pixelBytes
      ++ List.replicate (rowPadded24 width - width * 3).toNat 0

/-- bmp24_saveImage of bmp24.c, producing the byte content of the written
file. The header and info-header fields are recomputed and written at their
fixed offsets, but bmp24_writePixelData then seeks to image->header.offset —
the stale offset carried in the structure — and writes the pixel rows there,
not at the offset 54 just written into the file. -/
def bmp24_saveImage (img : Bmp24) : List Nat :=
  let dataSizeI := rowPadded24 img.width * img.height
  let data_size := (dataSizeI % 2 ^ 32).toNat
  let file_size := (14 + 40 + data_size) % 2 ^ 32
  let f0 : List Nat := []
  let f1 := writeBytes f0 0x00 (u16le 0x4D42)
  let f2 := writeBytes f1 0x02 (u32le file_size)
  let f3 := writeBytes f2 0x0A (u32le 54)
  let f4 := writeBytes f3 0x0E (u32le 40)
  let f5 := writeBytes f4 0x12 (i32le img.width)
  let f6 := writeBytes f5 0x16 (i32le img.height)
  let f7 := writeBytes f6 0x1A (u16le 1)
  let f8 := writeBytes f7 0x1C (u16le 24)
  let f9 := writeBytes f8 0x1E (u32le 0)
  let f10 := writeBytes f9 0x22 (u32le data_size)
  let f11 := writeBytes f10 0x26 (i32le 0)
  let f12 := writeBytes f11 0x2A (i32le 0)
  let f13 := writeBytes f12 0x2E (u32le 0)
  let f14 := writeBytes f13 0x32 (u32le 0)
  writeBytes f14 img.header.offset
    (pixelDataBytes img.data img.width img.height.toNat)

/-- One row of width pixels read sequentially from a byte position of the
file (fread of width packed t_pixel structs). -/
def readRow (file : List Nat) (pos width : Nat) : List Pixel :=
  (List.range width).map fun i =>
    ⟨file.getD (pos + 3 * i) 0, file.getD (pos + 3 * i + 1) 0,
      file.getD (pos + 3 * i + 2) 0⟩

/-- bmp24_readPixelData: starting at pos the file holds the rows bottom-up,
each row stride bytes long; rowsFromDisk file pos width stride h returns the
in-memory rows data[0..h-1] (top-to-bottom), the last row being the one read
first at pos. -/
def rowsFromDisk (file : List Nat) (pos width stride : Nat) :
    Nat → List (List Pixel)
  | 0 => []
  | n + 1 => rowsFromDisk file (pos + stride) width stride n
      ++ [readRow file pos width]

/-- bmp24_loadImage of bmp24.c over the byte content of the file: reads the
header fields at their fixed offsets, rejects a bad magic, an info-header
size below 40, a color depth other than 24 and a nonzero compression,
rejects nonpositive dimensions (bmp24_allocate returns NULL), and reads the
pixel rows bottom-up from the data offset, skipping the per-row padding.
Fields the C code never reads (the two reserved words and the four trailing
info fields) hold unspecified values there and 0 in the model. -/
def bmp24_loadImage (file : List Nat) : Option Bmp24 :=
  let htype := readU16 file 0x00
  let hsize := readU32 file 0x02
  let hoffset := readU32 file 0x0A
  let isize := readU32 file 0x0E
  let iwidth := readI32 file 0x12
  let iheight := readI32 file 0x16
  let iplanes := readU16 file 0x1A
  let ibits := readU16 file 0x1C
  let icompression := readU32 file 0x1E
  let iimagesize := readU32 file 0x22
  if htype ≠ 0x4D42 then none
  else if isize < 40 then none
  else if ibits ≠ 24 then none
  else if icompression ≠ 0 then none
  else if iwidth ≤ 0 ∨ iheight ≤ 0 then none
  else
    some
      { header := ⟨htype, hsize, 0, 0, hoffset⟩
        header_info := ⟨isize, iwidth, iheight, iplanes, ibits, icompression,
          iimagesize, 0, 0, 0, 0⟩
        width := iwidth
        height := iheight
        colorDepth := (ibits : Int)
        data := rowsFromDisk file hoffset iwidth.toNat
          (rowPadded24 iwidth).toNat iheight.toNat }

/-- bmp8_loadImage of bmp8.c over the byte content of the file: fails when
fewer than 54 header bytes exist, when the magic is not BM, when the color
depth field is not 8, when fewer than 1024 color-table bytes follow, or when
fewer than dataSize pixel bytes follow; otherwise the image carries the raw
header fields and exactly dataSize raw data bytes as they sit in the file
(no row-padding normalization of any kind). -/
def bmp8_loadImage (file : List Nat) : Option Bmp8 :=
  if file.length < 54 then none
  else if file.getD 0 0 ≠ 66 ∨ file.getD 1 0 ≠ 77 then none
  else
    let width := readU32 file 18
    let height := readU32 file 22
    let colorDepth := readU16 file 28
    let dataSize := readU32 file 34
    if colorDepth ≠ 8 then none
    else if (file.drop 54).length < 1024 then none
    else if (file.drop 1078).length < dataSize then none
    else
      some
        { header := file.take 54
          colorTable := (file.drop 54).take 1024
          data := (file.drop 1078).take dataSize
          width := width
          height := height
          colorDepth := colorDepth
          dataSize := dataSize }

/-- Reads data[y][x] at Nat coordinates (the in-bounds form of getPix). -/
def getPixN (d : List (List Pixel)) (y x : Nat) : Pixel :=
  (d.getD y []).getD x ⟨0, 0, 0⟩

/-- Equality of every t_bmp8 field except the pixel buffer. -/
def Bmp8.sameFrame (a b : Bmp8) : Prop :=
  a.header = b.header ∧ a.colorTable = b.colorTable ∧ a.width = b.width ∧
  a.height = b.height ∧ a.colorDepth = b.colorDepth ∧ a.dataSize = b.dataSize

/-- Equality of every t_bmp24 field except the pixel buffer. -/
def Bmp24.sameFrame (a b : Bmp24) : Prop :=
  a.header = b.header ∧ a.header_info = b.header_info ∧ a.width = b.width ∧
  a.height = b.height ∧ a.colorDepth = b.colorDepth

/-- The C struct t_yuv of bmp24.h: one pixel in YUV space, double fields
modelled over ℚ. -/
structure Yuv where
  y : ℚ
  u : ℚ
  v : ℚ
deriving DecidableEq

/-- rgb_to_yuv of bmp24.c; the decimal double literals are modelled as the
exact rationals they denote. -/
def rgb_to_yuv (p : Pixel) : Yuv :=
  { y := (299 / 1000) * (p.red : ℚ) + (587 / 1000) * (p.green : ℚ)
      + (114 / 1000) * (p.blue : ℚ)
    u := -(14713 / 100000) * (p.red : ℚ) - (28886 / 100000) * (p.green : ℚ)
      + (436 / 1000) * (p.blue : ℚ)
    v := (615 / 1000) * (p.red : ℚ) - (51499 / 100000) * (p.green : ℚ)
      - (10001 / 100000) * (p.blue : ℚ) }

/-- yuv_to_rgb of bmp24.c: the three channels are recombined and clamped
through clamp_uint8. -/
def yuv_to_rgb (yuv : Yuv) : Pixel :=
  let r := yuv.y + (113983 / 100000) * yuv.v
  let g := yuv.y - (39465 / 100000) * yuv.u - (58060 / 100000) * yuv.v
  let b := yuv.y + (203211 / 100000) * yuv.u
  { blue := clamp_uint8 b, green := clamp_uint8 g, red := clamp_uint8 r }

/-- Step 3 of bmp24_equalize for one pixel: convert to YUV, replace the
luma with the remap-table entry of its clamped value, convert back. -/
def equalizePixel (table : List Nat) (p : Pixel) : Pixel :=
  let yuv := rgb_to_yuv p
  let original_y := clamp_uint8 yuv.y
  yuv_to_rgb { yuv with y := (table.getD original_y 0 : ℚ) }

/-- bmp24_equalize of bmp24.c: numPixels is width*height converted to
unsigned int; the first double loop converts every pixel to YUV and builds
the histogram of the clamped luma values in row-major order; the remap table
comes from bmp8_computeCDF and the second double loop rewrites every pixel
through equalizePixel. bmp24.c calls bmp8_computeCDF with a single argument
(matching bmp8.h's one-argument prototype) while bmp8.c defines the
two-argument version modelled in this file, so the numPixels the callee
receives is unspecified in C; the model passes the caller's numPixels, the
evident intent, and the frame theorem below does not depend on that choice
(both a none and a some result preserve every non-data field). -/
def bmp24_equalize (img : Bmp24) : Bmp24 :=
  let numPixels := ((img.width * img.height) % 2 ^ 32).toNat
  if numPixels = 0 then img
  else
    let H := img.height.toNat
    let W := img.width.toNat
    let y_hist := ((List.range H).flatMap fun yy =>
        (List.range W).map fun xx =>
          clamp_uint8 (rgb_to_yuv (getPixN img.data yy xx)).y).foldl
      (fun h v => h.set v (h.getD v 0 + 1)) (List.replicate 256 0)
    match bmp8_computeCDF y_hist numPixels with
    | none => img
    | some table =>
        let newData := mapUpTo (fun row => mapUpTo (equalizePixel table) W row)
          H img.data
        { img with data := newData }

/-- A well-formed 1-by-1 24-bit image whose header carries data offset 122,
exactly as bmp24_loadImage builds it from a BMP with a 108-byte extended
info header (pixel data at 14 + 108 = 122). -/
def c1img : Bmp24 :=
  { header := ⟨0x4D42, 230, 0, 0, 122⟩
    header_info := ⟨108, 1, 1, 1, 24, 0, 4, 0, 0, 0, 0⟩
    width := 1
    height := 1
    colorDepth := 24
    data := [[⟨1, 2, 3⟩]] }

/-- An 8-bit BMP file of width 2, height 1 whose stored dataSize field is 4
(one padded on-disk row): 54 header bytes, 1024 color-table bytes, 4 data
bytes of which the last two are row padding. -/
def c2file : List Nat :=
  ((((((List.replicate 54 0).set 0 66).set 1 77).set 18 2).set 22 1).set
    28 8).set 34 4 ++ List.replicate 1024 0 ++ [9, 9, 0, 0]

/-- The image bmp8_loadImage builds from c2file. -/
def c2img : Bmp8 :=
  { header := ((((((List.replicate 54 0).set 0 66).set 1 77).set 18 2).set
      22 1).set 28 8).set 34 4
    colorTable := List.replicate 1024 0
    data := [9, 9, 0, 0]
    width := 2
    height := 1
    colorDepth := 8
    dataSize := 4 }

/-- A 5-by-7 grayscale image with every sample 7. -/
def c3img : Bmp8 :=
  { header := List.replicate 54 0
    colorTable := List.replicate 1024 0
    data := List.replicate 35 7
    width := 5
    height := 7
    colorDepth := 8
    dataSize := 35 }

/-- A 5-by-5 all-zero kernel (half-width 2). -/
def kernel5x5zero : List (List ℚ) :=
  List.replicate 5 (List.replicate 5 (0 : ℚ))

/-- A 3-by-3 grayscale image with every sample 1. -/
def c4img : Bmp8 :=
  { header := List.replicate 54 0
    colorTable := List.replicate 1024 0
    data := List.replicate 9 1
    width := 3
    height := 3
    colorDepth := 8
    dataSize := 9 }

/-- A 3-by-3 kernel whose center weight is 1/2 and all other weights 0. -/
def kernelCenterHalf : List (List ℚ) :=
  [[0, 0, 0], [0, 1 / 2, 0], [0, 0, 0]]

/-- A 3-by-3 24-bit image with every channel 1. -/
def c4img24 : Bmp24 :=
  { header := ⟨0x4D42, 94, 0, 0, 54⟩
    header_info := ⟨40, 3, 3, 1, 24, 0, 40, 0, 0, 0, 0⟩
    width := 3
    height := 3
    colorDepth := 24
    data := List.replicate 3 (List.replicate 3 ⟨1, 1, 1⟩) }

/-- A histogram with one pixel at intensity 0 and one at intensity 255. -/
def c5hist : List Nat :=
  ((List.replicate 256 0).set 0 1).set 255 1

/-- A uniform 2-by-2 grayscale image with every sample 10 (the degenerate
equalization example of the spec). -/
def c5img : Bmp8 :=
  { header := List.replicate 54 0
    colorTable := List.replicate 1024 0
    data := List.replicate 4 10
    width := 2
    height := 2
    colorDepth := 8
    dataSize := 4 }

/-- A small grayscale image with samples 0, 17 and 255. -/
def c6img : Bmp8 :=
  { header := List.replicate 54 0
    colorTable := List.replicate 1024 0
    data := [0, 17, 255]
    width := 3
    height := 1
    colorDepth := 8
    dataSize := 3 }

/-- A 1-by-2 24-bit image with two distinct pixels. -/
def c6img24 : Bmp24 :=
  { header := ⟨0x4D42, 62, 0, 0, 54⟩
    header_info := ⟨40, 2, 1, 1, 24, 0, 8, 0, 0, 0, 0⟩
    width := 2
    height := 1
    colorDepth := 24
    data := [[⟨0, 100, 255⟩, ⟨3, 4, 5⟩]] }

/-- A 4-by-4 24-bit all-black image (the spec's grayscale-then-negative
example scenario). -/
def c7img : Bmp24 :=
  { header := ⟨0x4D42, 102, 0, 0, 54⟩
    header_info := ⟨40, 4, 4, 1, 24, 0, 48, 0, 0, 0, 0⟩
    width := 4
    height := 4
    colorDepth := 24
    data := List.replicate 4 (List.replicate 4 ⟨0, 0, 0⟩) }

/-- A file of a single byte: too short for the 54-byte grayscale header. -/
def c8short : List Nat := [0x42]

/-- A 54-byte file whose magic bytes are not BM. -/
def c8badmagic : List Nat := List.replicate 54 0

/-- A 54 + 1024 + 1 byte file with BM magic but color depth 9. -/
def c8baddepth : List Nat :=
  (((List.replicate 54 0).set 0 66).set 1 77).set 28 9 ++
    List.replicate 1025 0

/-- A 60-byte file whose first two bytes are not the BMP magic. -/
def c8badmagic24 : List Nat := List.replicate 60 0

/-- A file with BM magic but an info-header size of 39. -/
def c8smallinfo : List Nat :=
  ((((List.replicate 60 0).set 0 66).set 1 77).set 14 39).set 28 24

/-- A file with BM magic, info size 40, but color depth 8. -/
def c8depth8 : List Nat :=
  ((((List.replicate 60 0).set 0 66).set 1 77).set 14 40).set 28 8

/-- A file with BM magic, info size 40, depth 24, but compression 1. -/
def c8compressed : List Nat :=
  (((((List.replicate 60 0).set 0 66).set 1 77).set 14 40).set 28 24).set 30 1

/-- A 2-by-2 grayscale image with samples 0, 100, 200, 255. -/
def c10img : Bmp8 :=
  { header := List.replicate 54 0
    colorTable := List.replicate 1024 0
    data := [0, 100, 200, 255]
    width := 2
    height := 2
    colorDepth := 8
    dataSize := 4 }

theorem mapUpTo_length (f : α → α) (n : Nat) (l : List α) :
    (mapUpTo f n l).length = l.length := by
  induction l generalizing n with
  | nil => cases n <;> rfl
  | cons a t ih =>
    cases n with
    | zero => rfl
    | succ m => simp [mapUpTo, ih]

theorem mapUpTo_getElem? (f : α → α) (n : Nat) (l : List α) (i : Nat) :
    (mapUpTo f n l)[i]? = if i < n then l[i]?.map f else l[i]? := by
  induction l generalizing n i with
  | nil => cases n <;> simp [mapUpTo]
  | cons a t ih =>
    cases n with
    | zero => simp [mapUpTo]
    | succ m =>
      cases i with
      | zero => simp [mapUpTo]
      | succ j =>
        simpa [mapUpTo, Nat.succ_lt_succ_iff] using ih m j

theorem mapUpTo_mapUpTo (f g : α → α) (n : Nat) (l : List α) :
    mapUpTo f n (mapUpTo g n l) = mapUpTo (fun a => f (g a)) n l := by
  induction l generalizing n with
  | nil => cases n <;> rfl
  | cons a t ih =>
    cases n with
    | zero => rfl
    | succ m => simp [mapUpTo, ih]

theorem mapUpTo_congr_id (f : α → α) (n : Nat) (l : List α)
    (h : ∀ a ∈ l, f a = a) : mapUpTo f n l = l := by
  induction l generalizing n with
  | nil => cases n <;> rfl
  | cons a t ih =>
    cases n with
    | zero => rfl
    | succ m =>
      have h1 := h a (List.mem_cons_self a t)
      have h2 := ih m fun b hb => h b (List.mem_cons_of_mem a hb)
      simp [mapUpTo, h1, h2]

theorem mapUpTo_const (f : α → α) (l : List α) (c : α)
    (h : ∀ a ∈ l, f a = c) :
    mapUpTo f l.length l = List.replicate l.length c := by
  induction l with
  | nil => rfl
  | cons a t ih =>
    have h1 := h a (List.mem_cons_self a t)
    have h2 := ih fun b hb => h b (List.mem_cons_of_mem a hb)
    simp [mapUpTo, List.replicate_succ, h1, h2]

theorem foldl_set_length (ix : β → Nat) (val : β → α) (ps : List β) (d : List α) :
    (ps.foldl (fun d2 p => d2.set (ix p) (val p)) d).length = d.length := by
  induction ps generalizing d with
  | nil => rfl
  | cons p t ih => rw [List.foldl_cons, ih, List.length_set]

theorem foldl_set_getElem?_not_mem (ix : β → Nat) (val : β → α) (ps : List β)
    (d : List α) (i : Nat) (h : ∀ p ∈ ps, ix p ≠ i) :
    (ps.foldl (fun d2 p => d2.set (ix p) (val p)) d)[i]? = d[i]? := by
  induction ps generalizing d with
  | nil => rfl
  | cons p t ih =>
    rw [List.foldl_cons, ih _ fun q hq => h q (List.mem_cons_of_mem p hq),
      List.getElem?_set]
    simp [h p (List.mem_cons_self p t)]

theorem foldl_set_getElem?_mem (ix : β → Nat) (val : β → α) (ps : List β)
    (d : List α) (p : β) (hp : p ∈ ps) (hnd : (ps.map ix).Nodup)
    (hlt : ix p < d.length) :
    (ps.foldl (fun d2 q => d2.set (ix q) (val q)) d)[ix p]? = some (val p) := by
  induction ps generalizing d with
  | nil => cases hp
  | cons q t ih =>
    rw [List.foldl_cons]
    have hnd2 : (t.map ix).Nodup := (List.nodup_cons.mp (by simpa using hnd)).2
    rcases List.mem_cons.mp hp with rfl | hpt
    · have hhead : ix p ∉ t.map ix := (List.nodup_cons.mp (by simpa using hnd)).1
      have hni : ∀ r ∈ t, ix r ≠ ix p := by
        intro r hr he
        exact hhead (he ▸ List.mem_map_of_mem ix hr)
      rw [foldl_set_getElem?_not_mem ix val t _ _ hni]
      exact List.getElem?_set_self hlt
    · exact ih (d.set (ix q) (val q)) hpt hnd2 (by rw [List.length_set]; exact hlt)

theorem setPix_length (d : List (List Pixel)) (y x : Nat) (v : Pixel) :
    (setPix d y x v).length = d.length := by
  unfold setPix; rw [List.length_set]

theorem getD_set_row (d : List (List Pixel)) (y : Nat) (r : List Pixel)
    (y2 : Nat) :
    (d.set y r).getD y2 [] = if y = y2 ∧ y < d.length then r else d.getD y2 [] := by
  rw [List.getD_eq_getElem?_getD, List.getD_eq_getElem?_getD, List.getElem?_set]
  rcases eq_or_ne y y2 with rfl | hne
  · by_cases hlt : y < d.length
    · simp [hlt]
    · rw [if_pos rfl, if_neg hlt, if_neg (fun hc => hlt hc.2),
        List.getElem?_eq_none (Nat.le_of_not_lt hlt)]
  · simp [hne]

theorem setPix_row_length (d : List (List Pixel)) (y x : Nat) (v : Pixel)
    (y2 : Nat) :
    ((setPix d y x v).getD y2 []).length = (d.getD y2 []).length := by
  unfold setPix
  rw [getD_set_row]
  split
  · rename_i h
    rw [List.length_set, h.1]
  · rfl

theorem getPixN_setPix_ne (d : List (List Pixel)) (y x : Nat) (v : Pixel)
    (y2 x2 : Nat) (h : (y, x) ≠ (y2, x2)) :
    getPixN (setPix d y x v) y2 x2 = getPixN d y2 x2 := by
  unfold getPixN setPix
  rw [getD_set_row]
  by_cases hc : y = y2 ∧ y < d.length
  · rw [if_pos hc]
    have hx : x ≠ x2 := fun he => h (by rw [hc.1, he])
    rw [← hc.1, List.getD_eq_getElem?_getD, List.getD_eq_getElem?_getD,
      List.getElem?_set, if_neg hx, List.getD_eq_getElem?_getD]
  · rw [if_neg hc]

theorem getPixN_setPix_eq (d : List (List Pixel)) (y x : Nat) (v : Pixel)
    (hy : y < d.length) (hx : x < (d.getD y []).length) :
    getPixN (setPix d y x v) y x = v := by
  unfold getPixN setPix
  rw [getD_set_row, if_pos ⟨rfl, hy⟩, List.getD_eq_getElem?_getD,
    List.getElem?_set_self hx]
  rfl

theorem foldl_setPix_length (pix : Nat → Nat → Pixel) (ps : List (Nat × Nat))
    (d : List (List Pixel)) :
    (ps.foldl (fun d2 p => setPix d2 p.1 p.2 (pix p.1 p.2)) d).length = d.length := by
  induction ps generalizing d with
  | nil => rfl
  | cons p t ih => rw [List.foldl_cons, ih, setPix_length]

theorem foldl_setPix_row_length (pix : Nat → Nat → Pixel) (ps : List (Nat × Nat))
    (d : List (List Pixel)) (y : Nat) :
    ((ps.foldl (fun d2 p => setPix d2 p.1 p.2 (pix p.1 p.2)) d).getD y []).length
      = (d.getD y []).length := by
  induction ps generalizing d with
  | nil => rfl
  | cons p t ih => rw [List.foldl_cons, ih, setPix_row_length]

theorem foldl_setPix_not_mem (pix : Nat → Nat → Pixel) (ps : List (Nat × Nat))
    (d : List (List Pixel)) (y x : Nat) (h : (y, x) ∉ ps) :
    getPixN (ps.foldl (fun d2 p => setPix d2 p.1 p.2 (pix p.1 p.2)) d) y x
      = getPixN d y x := by
  induction ps generalizing d with
  | nil => rfl
  | cons p t ih =>
    obtain ⟨py, px⟩ := p
    rw [List.foldl_cons, ih _ fun hm => h (List.mem_cons_of_mem _ hm),
      getPixN_setPix_ne]
    intro he
    rw [← he] at h
    exact h (List.mem_cons_self _ _)

theorem foldl_setPix_mem (pix : Nat → Nat → Pixel) (ps : List (Nat × Nat))
    (d : List (List Pixel)) (y x : Nat) (hp : (y, x) ∈ ps) (hnd : ps.Nodup)
    (hy : y < d.length) (hx : x < (d.getD y []).length) :
    getPixN (ps.foldl (fun d2 p => setPix d2 p.1 p.2 (pix p.1 p.2)) d) y x
      = pix y x := by
  induction ps generalizing d with
  | nil => cases hp
  | cons q t ih =>
    obtain ⟨qy, qx⟩ := q
    rw [List.foldl_cons]
    have hnd2 := (List.nodup_cons.mp hnd).2
    rcases List.mem_cons.mp hp with he | hpt
    · have h1 : y = qy := congrArg Prod.fst he
      have h2 : x = qx := congrArg Prod.snd he
      have hni : (qy, qx) ∉ t := (List.nodup_cons.mp hnd).1
      rw [h1] at hy hx ⊢
      rw [h2] at hx ⊢
      dsimp only
      rw [foldl_setPix_not_mem pix t _ qy qx hni,
        getPixN_setPix_eq d qy qx _ hy hx]
    · exact ih (setPix d qy qx (pix qy qx)) hpt hnd2
        (by rwa [setPix_length]) (by rwa [setPix_row_length])

theorem mem_loopPairs (ys xs : List Nat) (y x : Nat) :
    (y, x) ∈ loopPairs ys xs ↔ y ∈ ys ∧ x ∈ xs := by
  unfold loopPairs
  simp only [List.mem_flatMap, List.mem_map]
  constructor
  · rintro ⟨a, ha, b, hb, he⟩
    obtain ⟨rfl, rfl⟩ : a = y ∧ b = x := by
      constructor <;> [exact congrArg Prod.fst he; exact congrArg Prod.snd he]
    exact ⟨ha, hb⟩
  · rintro ⟨hy, hx⟩
    exact ⟨y, hy, x, hx, rfl⟩

theorem nodup_loopPairs (ys xs : List Nat) (hys : ys.Nodup) (hxs : xs.Nodup) :
    (loopPairs ys xs).Nodup := by
  induction ys with
  | nil => exact List.nodup_nil
  | cons y t ih =>
    have hyt : y ∉ t := (List.nodup_cons.mp hys).1
    have ht : t.Nodup := (List.nodup_cons.mp hys).2
    have hstep : loopPairs (y :: t) xs
        = (xs.map fun x => (y, x)) ++ loopPairs t xs := by
      unfold loopPairs; rw [List.flatMap_cons]
    rw [hstep]
    refine List.Nodup.append ?_ (ih ht) ?_
    · exact hxs.map fun a b he => congrArg Prod.snd he
    · intro p hp1 hp2
      obtain ⟨x1, _, rfl⟩ := List.mem_map.mp hp1
      have := (mem_loopPairs t xs y x1).mp hp2
      exact hyt this.1

theorem flatIdx_lt {y h x w : Nat} (hy : y < h) (hx : x < w) :
    y * w + x < h * w :=
  calc y * w + x < y * w + w := Nat.add_lt_add_left hx _
  _ = (y + 1) * w := (Nat.succ_mul y w).symm
  _ ≤ h * w := Nat.mul_le_mul_right w hy

theorem flatIdx_inj {w y1 x1 y2 x2 : Nat} (h1 : x1 < w) (h2 : x2 < w)
    (he : y1 * w + x1 = y2 * w + x2) : y1 = y2 ∧ x1 = x2 := by
  have hw : 0 < w := Nat.lt_of_le_of_lt (Nat.zero_le x1) h1
  rw [Nat.mul_comm y1 w, Nat.mul_comm y2 w] at he
  have e1 : (w * y1 + x1) / w = y1 + x1 / w := Nat.mul_add_div hw y1 x1
  have e2 : (w * y2 + x2) / w = y2 + x2 / w := Nat.mul_add_div hw y2 x2
  rw [Nat.div_eq_of_lt h1] at e1
  rw [Nat.div_eq_of_lt h2] at e2
  have hy : y1 = y2 := by rw [he] at e1; omega
  refine ⟨hy, ?_⟩
  subst hy
  omega

theorem nodup_flatIdx (w : Nat) (ys xs : List Nat) (hys : ys.Nodup)
    (hxs : xs.Nodup) (hx : ∀ x ∈ xs, x < w) :
    ((loopPairs ys xs).map fun p => p.1 * w + p.2).Nodup := by
  refine (nodup_loopPairs ys xs hys hxs).map_on ?_
  intro p hp q hq he
  have hpx := ((mem_loopPairs ys xs p.1 p.2).mp hp).2
  have hqx := ((mem_loopPairs ys xs q.1 q.2).mp hq).2
  have := flatIdx_inj (hx p.2 hpx) (hx q.2 hqx) he
  exact Prod.ext this.1 this.2

theorem foldl_add_eq_sum (f : Nat → ℚ) (n : Nat) (c : ℚ) :
    (List.range n).foldl (fun a i => a + f i) c = c + ∑ i in Finset.range n, f i := by
  induction n generalizing c with
  | zero => simp
  | succ m ih =>
    rw [List.range_succ, List.foldl_append, ih, Finset.sum_range_succ]
    simp [add_assoc]

theorem foldl_add2_eq_sum (g : Nat → Nat → ℚ) (m k : Nat) (c : ℚ) :
    (List.range m).foldl
        (fun a i => (List.range k).foldl (fun b j => b + g i j) a) c
      = c + ∑ i in Finset.range m, ∑ j in Finset.range k, g i j := by
  induction m generalizing c with
  | zero => simp
  | succ m2 ih =>
    rw [List.range_succ, List.foldl_append, ih, Finset.sum_range_succ]
    simp only [List.foldl_cons, List.foldl_nil]
    rw [foldl_add_eq_sum]
    ring

theorem foldl_add_eq_sum3 (f1 f2 f3 : Nat → ℚ) (n : Nat) (c : ℚ × ℚ × ℚ) :
    (List.range n).foldl
        (fun a i => (a.1 + f1 i, a.2.1 + f2 i, a.2.2 + f3 i)) c
      = (c.1 + ∑ i in Finset.range n, f1 i, c.2.1 + ∑ i in Finset.range n, f2 i,
          c.2.2 + ∑ i in Finset.range n, f3 i) := by
  induction n generalizing c with
  | zero => simp
  | succ m ih =>
    rw [List.range_succ, List.foldl_append, ih]
    simp only [List.foldl_cons, List.foldl_nil, Finset.sum_range_succ]
    refine Prod.ext ?_ (Prod.ext ?_ ?_) <;> dsimp <;> ring

theorem foldl_add2_eq_sum3 (g1 g2 g3 : Nat → Nat → ℚ) (m k : Nat)
    (c : ℚ × ℚ × ℚ) :
    (List.range m).foldl
        (fun a i => (List.range k).foldl
          (fun b j => (b.1 + g1 i j, b.2.1 + g2 i j, b.2.2 + g3 i j)) a) c
      = (c.1 + ∑ i in Finset.range m, ∑ j in Finset.range k, g1 i j,
          c.2.1 + ∑ i in Finset.range m, ∑ j in Finset.range k, g2 i j,
          c.2.2 + ∑ i in Finset.range m, ∑ j in Finset.range k, g3 i j) := by
  induction m generalizing c with
  | zero => simp
  | succ m2 ih =>
    rw [List.range_succ, List.foldl_append, ih]
    simp only [List.foldl_cons, List.foldl_nil, Finset.sum_range_succ]
    rw [foldl_add_eq_sum3]
    refine Prod.ext ?_ (Prod.ext ?_ ?_) <;> dsimp <;> ring

theorem cround_nonneg_eq_floor (q : ℚ) (h : 0 ≤ q) :
    cround q = ⌊q + 1 / 2⌋ := by
  unfold cround; rw [if_pos h]

theorem cround_le_of_le (q : ℚ) (h0 : 0 ≤ q) (h : q ≤ 255) : cround q ≤ 255 := by
  rw [cround_nonneg_eq_floor q h0]
  have h2 : ⌊(q + 1 / 2 : ℚ)⌋ < (256 : Int) :=
    Int.floor_lt.mpr (by push_cast; linarith)
  omega

theorem cround_nonneg (q : ℚ) (h0 : 0 ≤ q) : 0 ≤ cround q := by
  rw [cround_nonneg_eq_floor q h0]
  have : (0 : ℚ) ≤ q + 1 / 2 := by linarith
  exact Int.le_floor.mpr (by exact_mod_cast this)

theorem clamp_uint8_eq_clampRoundSpec (q : ℚ) :
    clamp_uint8 q = clampRoundSpec q := by
  unfold clamp_uint8 clampRoundSpec
  by_cases h1 : 255 < q
  · rw [if_pos h1]
    have h0 : (0 : ℚ) ≤ q := by linarith
    have : (255 : Int) ≤ cround q := by
      rw [cround_nonneg_eq_floor q h0]
      exact Int.le_floor.mpr (by push_cast; linarith)
    omega
  · rw [if_neg h1]
    by_cases h2 : q < 0
    · rw [if_pos h2]
      have : cround q ≤ 0 := by
        unfold cround
        rw [if_neg (by linarith)]
        have : (0 : ℚ) ≤ -q + 1 / 2 := by linarith
        have := Int.le_floor.mpr (show ((0 : Int) : ℚ) ≤ -q + 1 / 2 by push_cast; linarith)
        omega
      omega
    · rw [if_neg h2]
      have h0 : (0 : ℚ) ≤ q := le_of_not_lt h2
      have hle : cround q ≤ 255 := cround_le_of_le q h0 (le_of_not_lt h1)
      have hge : 0 ≤ cround q := cround_nonneg q h0
      omega

theorem usub_eq_sub {a b : Nat} (hba : b ≤ a) (ha : a < 2 ^ 32) :
    usub a b = a - b := by
  unfold usub
  have hb : b % 2 ^ 32 = b := Nat.mod_eq_of_lt (Nat.lt_of_le_of_lt hba ha)
  rw [hb]
  have h1 : a + 2 ^ 32 - b = (a - b) + 2 ^ 32 := by omega
  rw [h1, Nat.add_mod_right]
  exact Nat.mod_eq_of_lt (by omega)

theorem partialSums_length (l : List Nat) (acc : Nat) :
    (partialSums l acc).length = l.length := by
  induction l generalizing acc with
  | nil => rfl
  | cons h t ih => simp [partialSums, ih]

theorem partialSums_getD_le (l : List Nat) (acc : Nat) (i : Nat)
    (hi : i < l.length) : acc ≤ (partialSums l acc).getD i 0 := by
  induction l generalizing acc i with
  | nil => simp at hi
  | cons h t ih =>
    cases i with
    | zero => simp [partialSums]
    | succ j =>
      have := ih (acc + h) j (by simpa using hi)
      simp only [partialSums, List.getD_cons_succ]
      omega

theorem partialSums_getD_le_sum (l : List Nat) (acc : Nat) (i : Nat) :
    (partialSums l acc).getD i 0 ≤ acc + l.sum := by
  induction l generalizing acc i with
  | nil => simp [partialSums]
  | cons h t ih =>
    cases i with
    | zero => simp [partialSums]
    | succ j =>
      have := ih (acc + h) j
      simp only [partialSums, List.getD_cons_succ, List.sum_cons]
      omega

theorem firstPositive_le_getD (l : List Nat) (acc : Nat) (i : Nat)
    (hi : i < l.length) (hpos : 0 < (partialSums l acc).getD i 0) :
    firstPositive (partialSums l acc) ≤ (partialSums l acc).getD i 0 := by
  induction l generalizing acc i with
  | nil => simp at hi
  | cons h t ih =>
    by_cases hh : 0 < acc + h
    · have hfp : firstPositive (partialSums (h :: t) acc) = acc + h := by
        unfold firstPositive
        simp only [partialSums]
        rw [List.find?_cons_of_pos _ (by simpa using hh)]
        rfl
      rw [hfp]
      cases i with
      | zero => simp [partialSums]
      | succ j =>
        have := partialSums_getD_le t (acc + h) j (by simpa using hi)
        simpa [partialSums, List.getD_cons_succ] using this
    · have hfp : firstPositive (partialSums (h :: t) acc)
          = firstPositive (partialSums t (acc + h)) := by
        unfold firstPositive
        simp only [partialSums]
        rw [List.find?_cons_of_neg _ (by simpa using hh)]
      rw [hfp]
      cases i with
      | zero =>
        simp only [partialSums, List.getD_cons_zero] at hpos
        omega
      | succ j =>
        have hpos2 : 0 < (partialSums t (acc + h)).getD j 0 := by
          simpa [partialSums, List.getD_cons_succ] using hpos
        have := ih (acc + h) j (by simpa using hi) hpos2
        simpa [partialSums, List.getD_cons_succ] using this

theorem firstPositive_le_sum (l : List Nat) (acc : Nat) :
    firstPositive (partialSums l acc) ≤ acc + l.sum := by
  unfold firstPositive
  rcases hf : (partialSums l acc).find? (fun c => decide (0 < c)) with _ | c
  · simp
  · have hmem := List.mem_of_find?_eq_some hf
    simp only [Option.getD_some]
    obtain ⟨i, hi, hgi⟩ := List.getElem_of_mem hmem
    have := partialSums_getD_le_sum l acc i
    rw [List.getD_eq_getElem?_getD, List.getElem?_eq_getElem hi, hgi] at this
    exact this

theorem set_getD_self (l : List Nat) (i : Nat) : l.set i (l.getD i 0) = l := by
  apply List.ext_getElem?
  intro j
  rw [List.getElem?_set]
  rcases eq_or_ne i j with rfl | hne
  · by_cases hlt : i < l.length
    · rw [if_pos rfl, if_pos hlt, List.getD_eq_getElem?_getD,
        List.getElem?_eq_getElem hlt]
      rfl
    · rw [if_pos rfl, if_neg hlt, List.getElem?_eq_none (Nat.le_of_not_lt hlt)]
  · rw [if_neg hne]

theorem hist_fold_replicate (n : Nat) (s : List Nat) (v : Nat) :
    (List.replicate n v).foldl (fun h u => h.set u (h.getD u 0 + 1)) s
      = s.set v (s.getD v 0 + n) := by
  induction n generalizing s with
  | zero => simpa using (set_getD_self s v).symm
  | succ m ih =>
    rw [List.replicate_succ, List.foldl_cons, ih]
    by_cases hlt : v < s.length
    · rw [List.set_set]
      congr 1
      rw [List.getD_eq_getElem?_getD, List.getElem?_set_self hlt]
      simp only [Option.getD_some]
      omega
    · have hs : s.set v (s.getD v 0 + 1) = s := List.set_eq_of_length_le (Nat.le_of_not_lt hlt)
      rw [hs, List.set_eq_of_length_le (Nat.le_of_not_lt hlt),
        List.set_eq_of_length_le (Nat.le_of_not_lt hlt)]

theorem replicate_set_eq_append (k v N : Nat) (h : v < k) :
    (List.replicate k (0 : Nat)).set v N
      = List.replicate v 0 ++ N :: List.replicate (k - v - 1) 0 := by
  induction v generalizing k with
  | zero =>
    cases k with
    | zero => omega
    | succ j => simp [List.replicate_succ]
  | succ u ih =>
    cases k with
    | zero => omega
    | succ j =>
      rw [List.replicate_succ, List.set_cons_succ, ih j (by omega)]
      simp [List.replicate_succ]

theorem firstPositive_prefix_zeros (N : Nat) (hN : 0 < N) :
    ∀ (v : Nat) (rest : List Nat),
      firstPositive (partialSums (List.replicate v 0 ++ N :: rest) 0) = N := by
  intro v
  induction v with
  | zero =>
    intro rest
    unfold firstPositive
    simp only [List.replicate, List.nil_append, partialSums, Nat.zero_add]
    rw [List.find?_cons_of_pos _ (by simpa using hN)]
    rfl
  | succ u ih =>
    intro rest
    unfold firstPositive
    simp only [List.replicate_succ, List.cons_append, partialSums, Nat.add_zero]
    rw [List.find?_cons_of_neg _ (by simp)]
    exact ih rest

theorem getD_range_of_lt (n i : Nat) (h : i < n) : (List.range n).getD i 0 = i := by
  rw [List.getD_eq_getElem?_getD, List.getElem?_range h]
  rfl

/-- C6: the negative operation is self-inverse on both the grayscale and the
color engine: with every channel sample an unsigned char (below 256),
applying negative twice restores the original image, since each sample v
maps to 255 - v. -/
theorem negative_self_inverse :
    (∀ img : Bmp8, (∀ v ∈ img.data, v < 256) →
      bmp8_negative (bmp8_negative img) = img) ∧
    (∀ img : Bmp24,
      (∀ row ∈ img.data, ∀ p ∈ row, p.blue < 256 ∧ p.green < 256 ∧ p.red < 256) →
      bmp24_negative (bmp24_negative img) = img) := by
  constructor
  · intro img h
    have hid : ∀ a ∈ img.data, 255 - (255 - a) = a := by
      intro a ha
      have := h a ha
      omega
    unfold bmp8_negative
    dsimp only
    rw [mapUpTo_mapUpTo, mapUpTo_congr_id _ _ _ hid]
  · intro img h
    have hrow : ∀ row ∈ img.data,
        mapUpTo negativePixel img.width.toNat
          (mapUpTo negativePixel img.width.toNat row) = row := by
      intro row hr
      rw [mapUpTo_mapUpTo]
      apply mapUpTo_congr_id
      intro p hp
      obtain ⟨hb, hg, hr2⟩ := h row hr p hp
      obtain ⟨b, g, r⟩ := p
      dsimp only at hb hg hr2
      simp only [negativePixel, Pixel.mk.injEq]
      refine ⟨by omega, by omega, by omega⟩
    unfold bmp24_negative
    dsimp only
    rw [mapUpTo_mapUpTo, mapUpTo_congr_id _ _ _ hrow]

/-- C6 witness: applying negative twice restores a concrete grayscale image
and a concrete color image. -/
theorem negative_self_inverse_witness :
    bmp8_negative (bmp8_negative c6img) = c6img ∧
    bmp24_negative (bmp24_negative c6img24) = c6img24 :=
  ⟨negative_self_inverse.1 c6img (by decide),
   negative_self_inverse.2 c6img24 (by decide)⟩

/-- C9: every transform of either engine — negative, brightness, threshold,
grayscale conversion, filter application and histogram equalization —
mutates only the pixel buffer; the headers, color table / info header,
dimensions, color depth and size fields are identical before and after. -/
theorem transforms_preserve_frame :
    ∀ (img : Bmp8) (img24 : Bmp24) (value level : Int)
      (kernel : List (List ℚ)) (kernelSize : Nat),
      (bmp8_negative img).sameFrame img ∧
      (bmp8_brightness img value).sameFrame img ∧
      (bmp8_threshold img level).sameFrame img ∧
      (bmp8_applyFilter img kernel kernelSize).sameFrame img ∧
      (bmp8_equalize img).sameFrame img ∧
      (bmp24_negative img24).sameFrame img24 ∧
      (bmp24_grayscale img24).sameFrame img24 ∧
      (bmp24_brightness img24 value).sameFrame img24 ∧
      (bmp24_applyFilter img24 kernel kernelSize).sameFrame img24 ∧
      (bmp24_equalize img24).sameFrame img24 := by
  intro img img24 value level kernel kernelSize
  refine ⟨⟨rfl, rfl, rfl, rfl, rfl, rfl⟩, ⟨rfl, rfl, rfl, rfl, rfl, rfl⟩,
    ⟨rfl, rfl, rfl, rfl, rfl, rfl⟩, ?_, ?_, ⟨rfl, rfl, rfl, rfl, rfl⟩,
    ⟨rfl, rfl, rfl, rfl, rfl⟩, ⟨rfl, rfl, rfl, rfl, rfl⟩, ?_, ?_⟩
  · dsimp only [bmp8_applyFilter]
    split <;> exact ⟨rfl, rfl, rfl, rfl, rfl, rfl⟩
  · dsimp only [bmp8_equalize]
    split
    · exact ⟨rfl, rfl, rfl, rfl, rfl, rfl⟩
    · split <;> exact ⟨rfl, rfl, rfl, rfl, rfl, rfl⟩
  · dsimp only [bmp24_applyFilter]
    split <;> exact ⟨rfl, rfl, rfl, rfl, rfl⟩
  · dsimp only [bmp24_equalize]
    split
    · exact ⟨rfl, rfl, rfl, rfl, rfl⟩
    · split <;> exact ⟨rfl, rfl, rfl, rfl, rfl⟩

/-- C10: the threshold level is an int compared against the promoted
unsigned sample, so a level at or below 0 whitens every sample and a level
above 255 blackens every sample, over the whole int range. -/
theorem bmp8_threshold_extreme_levels :
    ∀ (img : Bmp8) (level : Int), img.wf →
      (level ≤ 0 →
        (bmp8_threshold img level).data = List.replicate img.data.length 255) ∧
      (255 < level →
        (bmp8_threshold img level).data = List.replicate img.data.length 0) := by
  intro img level hwf
  obtain ⟨hlen, hval⟩ := hwf
  constructor
  · intro hle
    show mapUpTo (thresholdSample level) img.dataSize img.data = _
    rw [hlen]
    apply mapUpTo_const
    intro a _
    unfold thresholdSample
    rw [if_pos (by omega)]
  · intro hgt
    show mapUpTo (thresholdSample level) img.dataSize img.data = _
    rw [hlen]
    apply mapUpTo_const
    intro a ha
    have := hval a ha
    unfold thresholdSample
    rw [if_neg (by omega)]

/-- C10 witness: thresholding a concrete image at level 0 yields all 255 and
at level 300 yields all 0. -/
theorem bmp8_threshold_extreme_levels_witness :
    (bmp8_threshold c10img 0).data = List.replicate c10img.data.length 255 ∧
    (bmp8_threshold c10img 300).data = List.replicate c10img.data.length 0 :=
  ⟨(bmp8_threshold_extreme_levels c10img 0 (by decide)).1 (by decide),
   (bmp8_threshold_extreme_levels c10img 300 (by decide)).2 (by decide)⟩

/-- C2 (amended): after a successful grayscale load the image's dataSize is
exactly the header's dataSize field and the pixel buffer holds exactly those
raw file bytes; no row padding is stripped, so dataSize = width*height holds
only when the header field happens to equal it. -/
theorem bmp8_load_keeps_raw_dataSize :
    ∀ (file : List Nat) (img : Bmp8), bmp8_loadImage file = some img →
      img.dataSize = readU32 file 34 ∧ img.data.length = img.dataSize ∧
      img.data = (file.drop 1078).take img.dataSize := by
  intro file img h
  unfold bmp8_loadImage at h
  dsimp only at h
  split at h
  · exact absurd h (by simp)
  · split at h
    · exact absurd h (by simp)
    · split at h
      · exact absurd h (by simp)
      · split at h
        · exact absurd h (by simp)
        · split at h
          · exact absurd h (by simp)
          · injection h with h6
            subst h6
            refine ⟨rfl, ?_, rfl⟩
            dsimp only
            rw [List.length_take]
            exact Nat.min_eq_left (by omega)

set_option maxRecDepth 40000 in
/-- C2 counterexample: a width-2, height-1 file whose stored dataSize field
is the padded row size 4 loads successfully with dataSize 4 and a 4-byte
buffer, although width*height = 2: the claimed normalization does not
happen. -/
theorem bmp8_load_padding_counterexample :
    bmp8_loadImage c2file = some c2img ∧
    c2img.dataSize ≠ c2img.width * c2img.height ∧
    c2img.data.length ≠ c2img.width * c2img.height := by
  refine ⟨by decide, by decide, by decide⟩

set_option maxRecDepth 40000 in
/-- C2 witness: the amended statement instantiated at the concrete file. -/
theorem bmp8_load_keeps_raw_dataSize_witness :
    c2img.dataSize = readU32 c2file 34 ∧ c2img.data.length = c2img.dataSize ∧
    c2img.data = (c2file.drop 1078).take c2img.dataSize :=
  bmp8_load_keeps_raw_dataSize c2file c2img (by decide)

/-- C8: every format-precondition violation makes load return none: for the
grayscale codec a file shorter than the 54-byte header, magic bytes other
than BM, or a color depth other than 8; for the color codec a magic
mismatch, an info-header size below 40, a color depth other than 24, or a
nonzero compression field. No image is returned in any of these cases. -/
theorem load_rejects_bad_formats :
    (∀ file : List Nat, file.length < 54 → bmp8_loadImage file = none) ∧
    (∀ file : List Nat, file.getD 0 0 ≠ 66 ∨ file.getD 1 0 ≠ 77 →
      bmp8_loadImage file = none) ∧
    (∀ file : List Nat, readU16 file 28 ≠ 8 → bmp8_loadImage file = none) ∧
    (∀ file : List Nat, readU16 file 0 ≠ 0x4D42 → bmp24_loadImage file = none) ∧
    (∀ file : List Nat, readU32 file 0x0E < 40 → bmp24_loadImage file = none) ∧
    (∀ file : List Nat, readU16 file 0x1C ≠ 24 → bmp24_loadImage file = none) ∧
    (∀ file : List Nat, readU32 file 0x1E ≠ 0 → bmp24_loadImage file = none) := by
  refine ⟨?_, ?_, ?_, ?_, ?_, ?_, ?_⟩
  · intro file h
    unfold bmp8_loadImage
    rw [if_pos h]
  · intro file h
    unfold bmp8_loadImage
    by_cases h1 : file.length < 54
    · rw [if_pos h1]
    · rw [if_neg h1, if_pos h]
  · intro file h
    unfold bmp8_loadImage
    by_cases h1 : file.length < 54
    · rw [if_pos h1]
    · rw [if_neg h1]
      by_cases h2 : file.getD 0 0 ≠ 66 ∨ file.getD 1 0 ≠ 77
      · rw [if_pos h2]
      · rw [if_neg h2]
        dsimp only
        rw [if_pos h]
  · intro file h
    unfold bmp24_loadImage
    dsimp only
    rw [if_pos h]
  · intro file h
    unfold bmp24_loadImage
    dsimp only
    by_cases h1 : readU16 file 0 ≠ 0x4D42
    · rw [if_pos h1]
    · rw [if_neg h1, if_pos h]
  · intro file h
    unfold bmp24_loadImage
    dsimp only
    by_cases h1 : readU16 file 0 ≠ 0x4D42
    · rw [if_pos h1]
    · rw [if_neg h1]
      by_cases h2 : readU32 file 0x0E < 40
      · rw [if_pos h2]
      · rw [if_neg h2, if_pos h]
  · intro file h
    unfold bmp24_loadImage
    dsimp only
    by_cases h1 : readU16 file 0 ≠ 0x4D42
    · rw [if_pos h1]
    · rw [if_neg h1]
      by_cases h2 : readU32 file 0x0E < 40
      · rw [if_pos h2]
      · rw [if_neg h2]
        by_cases h3 : readU16 file 0x1C ≠ 24
        · rw [if_pos h3]
        · rw [if_neg h3, if_pos h]

/-- C8 witness: concrete malformed files of each kind are rejected by the
loaders. -/
theorem load_rejects_bad_formats_witness :
    bmp8_loadImage c8short = none ∧ bmp8_loadImage c8badmagic = none ∧
    bmp8_loadImage c8baddepth = none ∧ bmp24_loadImage c8badmagic24 = none ∧
    bmp24_loadImage c8smallinfo = none ∧ bmp24_loadImage c8depth8 = none ∧
    bmp24_loadImage c8compressed = none :=
  ⟨load_rejects_bad_formats.1 c8short (by decide),
   load_rejects_bad_formats.2.1 c8badmagic (Or.inl (by decide)),
   load_rejects_bad_formats.2.2.1 c8baddepth (by decide),
   load_rejects_bad_formats.2.2.2.1 c8badmagic24 (by decide),
   load_rejects_bad_formats.2.2.2.2.1 c8smallinfo (by decide),
   load_rejects_bad_formats.2.2.2.2.2.1 c8depth8 (by decide),
   load_rejects_bad_formats.2.2.2.2.2.2 c8compressed (by decide)⟩

/-- C7: bmp24_grayscale replaces the three channels of every pixel inside
the iterated height-by-width region with the truncating integer average
(red + green + blue) / 3, and on the concrete 4-by-4 all-black image,
grayscale followed by negative yields every channel 255. -/
theorem bmp24_grayscale_truncating_average :
    (∀ (img : Bmp24) (y x : Nat), y < img.height.toNat → x < img.width.toNat →
      getPixN (bmp24_grayscale img).data y x =
        (let p := getPixN img.data y x
         let g := (p.red + p.green + p.blue) / 3
         ⟨g, g, g⟩ : Pixel)) ∧
    (bmp24_negative (bmp24_grayscale c7img)).data
      = List.replicate 4 (List.replicate 4 ⟨255, 255, 255⟩) := by
  constructor
  · intro img y x hy hx
    unfold bmp24_grayscale getPixN
    dsimp only
    simp only [List.getD_eq_getElem?_getD]
    rw [mapUpTo_getElem?, if_pos hy]
    cases hrow : img.data[y]? with
    | none => simp
    | some row =>
      simp only [Option.map_some', Option.getD_some]
      rw [mapUpTo_getElem?, if_pos hx]
      cases hp : row[x]? with
      | none => simp
      | some p => rfl
  · decide

/-- C7 witness: the truncating-average formula instantiated at the top-left
pixel of the concrete all-black image. -/
theorem bmp24_grayscale_truncating_average_witness :
    getPixN (bmp24_grayscale c7img).data 0 0 =
      (let p := getPixN c7img.data 0 0
       let g := (p.red + p.green + p.blue) / 3
       ⟨g, g, g⟩ : Pixel) :=
  bmp24_grayscale_truncating_average.1 c7img 0 0 (by decide) (by decide)

theorem getD_replicate_zeroQ (n i : Nat) :
    (List.replicate n (0 : ℚ)).getD i 0 = 0 := by
  rw [List.getD_eq_getElem?_getD]
  rcases lt_or_ge i n with h | h
  · simp [List.getElem?_replicate, h]
  · rw [List.getElem?_eq_none (by simpa using h)]
    rfl

theorem kernelAt_replicate_zero (m k ky0 kx0 : Nat) :
    kernelAt (List.replicate m (List.replicate k (0 : ℚ))) ky0 kx0 = 0 := by
  unfold kernelAt
  have hrow : (List.replicate m (List.replicate k (0 : ℚ))).getD ky0 []
      = List.replicate (if ky0 < m then k else 0) 0 := by
    rcases lt_or_ge ky0 m with h | h
    · rw [if_pos h, List.getD_eq_getElem?_getD, List.getElem?_replicate, if_pos h]
      rfl
    · rw [if_neg (by omega), List.getD_eq_getElem?_getD,
        List.getElem?_eq_none (by simpa using h)]
      rfl
  rw [hrow]
  exact getD_replicate_zeroQ _ kx0

theorem convSum8_eq_sum (temp : List Nat) (width x y : Nat)
    (kernel : List (List ℚ)) (n : Nat) :
    convSum8 temp width x y kernel n
      = ∑ ky0 in Finset.range (2 * n + 1), ∑ kx0 in Finset.range (2 * n + 1),
          (getFlat temp (((y : Int) + (ky0 : Int) - (n : Int)) * (width : Int)
            + ((x : Int) + (kx0 : Int) - (n : Int))) : ℚ) * kernelAt kernel ky0 kx0 := by
  refine Eq.trans ?_ (zero_add _)
  exact foldl_add2_eq_sum _ (2 * n + 1) (2 * n + 1) 0

theorem convSum24_eq_sum (temp : List (List Pixel)) (x y : Nat)
    (kernel : List (List ℚ)) (n : Nat) :
    convSum24 temp x y kernel n
      = (∑ ky0 in Finset.range (2 * n + 1), ∑ kx0 in Finset.range (2 * n + 1),
          ((getPix temp ((y : Int) + (ky0 : Int) - (n : Int))
            ((x : Int) + (kx0 : Int) - (n : Int))).blue : ℚ) * kernelAt kernel ky0 kx0,
         ∑ ky0 in Finset.range (2 * n + 1), ∑ kx0 in Finset.range (2 * n + 1),
          ((getPix temp ((y : Int) + (ky0 : Int) - (n : Int))
            ((x : Int) + (kx0 : Int) - (n : Int))).green : ℚ) * kernelAt kernel ky0 kx0,
         ∑ ky0 in Finset.range (2 * n + 1), ∑ kx0 in Finset.range (2 * n + 1),
          ((getPix temp ((y : Int) + (ky0 : Int) - (n : Int))
            ((x : Int) + (kx0 : Int) - (n : Int))).red : ℚ) * kernelAt kernel ky0 kx0) := by
  have h := foldl_add2_eq_sum3
    (fun ky0 kx0 => ((getPix temp ((y : Int) + (ky0 : Int) - (n : Int))
      ((x : Int) + (kx0 : Int) - (n : Int))).blue : ℚ) * kernelAt kernel ky0 kx0)
    (fun ky0 kx0 => ((getPix temp ((y : Int) + (ky0 : Int) - (n : Int))
      ((x : Int) + (kx0 : Int) - (n : Int))).green : ℚ) * kernelAt kernel ky0 kx0)
    (fun ky0 kx0 => ((getPix temp ((y : Int) + (ky0 : Int) - (n : Int))
      ((x : Int) + (kx0 : Int) - (n : Int))).red : ℚ) * kernelAt kernel ky0 kx0)
    (2 * n + 1) (2 * n + 1) (0, 0, 0)
  have h2 : convSum24 temp x y kernel n
      = ((0 : ℚ) + ∑ ky0 in Finset.range (2 * n + 1), ∑ kx0 in Finset.range (2 * n + 1),
          ((getPix temp ((y : Int) + (ky0 : Int) - (n : Int))
            ((x : Int) + (kx0 : Int) - (n : Int))).blue : ℚ) * kernelAt kernel ky0 kx0,
         (0 : ℚ) + ∑ ky0 in Finset.range (2 * n + 1), ∑ kx0 in Finset.range (2 * n + 1),
          ((getPix temp ((y : Int) + (ky0 : Int) - (n : Int))
            ((x : Int) + (kx0 : Int) - (n : Int))).green : ℚ) * kernelAt kernel ky0 kx0,
         (0 : ℚ) + ∑ ky0 in Finset.range (2 * n + 1), ∑ kx0 in Finset.range (2 * n + 1),
          ((getPix temp ((y : Int) + (ky0 : Int) - (n : Int))
            ((x : Int) + (kx0 : Int) - (n : Int))).red : ℚ) * kernelAt kernel ky0 kx0) := h
  rw [h2, zero_add, zero_add, zero_add]

theorem bmp8_applyFilter_processed (img : Bmp8) (kernel : List (List ℚ))
    (kernelSize : Nat) (hodd : kernelSize % 2 = 1) (x y : Nat)
    (hx1 : 1 ≤ x) (hx2 : x < img.width - 1) (hy1 : 1 ≤ y)
    (hy2 : y < img.height - 1) (hxw : x < img.width)
    (hidx : y * img.width + x < img.data.length) :
    ((bmp8_applyFilter img kernel kernelSize).data).getD (y * img.width + x) 0
      = clampTrunc (convSum8 img.data img.width x y kernel (kernelSize / 2)) := by
  unfold bmp8_applyFilter
  rw [if_neg (by omega)]
  dsimp only
  rw [List.getD_eq_getElem?_getD]
  have hmem : (y, x) ∈ loopPairs (List.range' 1 (img.height - 1 - 1))
      (List.range' 1 (img.width - 1 - 1)) := by
    rw [mem_loopPairs]
    constructor <;> (rw [List.mem_range'_1]; omega)
  have hxbound : ∀ x2 ∈ List.range' 1 (img.width - 1 - 1), x2 < img.width := by
    intro x2 hm
    rw [List.mem_range'_1] at hm
    omega
  have hnd := nodup_flatIdx img.width (List.range' 1 (img.height - 1 - 1))
    (List.range' 1 (img.width - 1 - 1)) (List.nodup_range' _ _)
    (List.nodup_range' _ _) hxbound
  have hval := foldl_set_getElem?_mem
    (fun p : Nat × Nat => p.1 * img.width + p.2)
    (fun p : Nat × Nat => clampTrunc
      (convSum8 img.data img.width p.2 p.1 kernel (kernelSize / 2)))
    (loopPairs (List.range' 1 (img.height - 1 - 1))
      (List.range' 1 (img.width - 1 - 1)))
    img.data (y, x) hmem hnd hidx
  simp only [] at hval
  rw [hval]
  rfl

theorem bmp24_applyFilter_processed (img : Bmp24) (kernel : List (List ℚ))
    (kernelSize : Nat) (hodd : kernelSize % 2 = 1) (x y : Nat)
    (hy1 : kernelSize / 2 ≤ y)
    (hy2 : (y : Int) < img.height - ((kernelSize / 2 : Nat) : Int))
    (hx1 : kernelSize / 2 ≤ x)
    (hx2 : (x : Int) < img.width - ((kernelSize / 2 : Nat) : Int))
    (hylen : y < img.data.length) (hxlen : x < (img.data.getD y []).length) :
    getPixN (bmp24_applyFilter img kernel kernelSize).data y x
      = filteredPixel img.data x y kernel (kernelSize / 2) := by
  unfold bmp24_applyFilter
  rw [if_neg (by omega)]
  dsimp only
  have hmem : (y, x) ∈ loopPairs
      (List.range' (kernelSize / 2)
        (img.height - 2 * ((kernelSize / 2 : Nat) : Int)).toNat)
      (List.range' (kernelSize / 2)
        (img.width - 2 * ((kernelSize / 2 : Nat) : Int)).toNat) := by
    rw [mem_loopPairs]
    constructor <;> (rw [List.mem_range'_1]; omega)
  have hnd := nodup_loopPairs
    (List.range' (kernelSize / 2)
      (img.height - 2 * ((kernelSize / 2 : Nat) : Int)).toNat)
    (List.range' (kernelSize / 2)
      (img.width - 2 * ((kernelSize / 2 : Nat) : Int)).toNat)
    (List.nodup_range' _ _) (List.nodup_range' _ _)
  have hval := foldl_setPix_mem
    (fun py px => filteredPixel img.data px py kernel (kernelSize / 2))
    (loopPairs
      (List.range' (kernelSize / 2)
        (img.height - 2 * ((kernelSize / 2 : Nat) : Int)).toNat)
      (List.range' (kernelSize / 2)
        (img.width - 2 * ((kernelSize / 2 : Nat) : Int)).toNat))
    img.data y x hmem hnd hylen hxlen
  simp only [] at hval
  rw [hval]

theorem getFlat_replicate (m v : Nat) (i : Int) (h0 : 0 ≤ i) (hm : i < (m : Int)) :
    getFlat (List.replicate m v) i = v := by
  unfold getFlat
  rw [if_pos h0, List.getD_eq_getElem?_getD, List.getElem?_replicate,
    if_pos (by omega)]
  rfl

/-- C3: bmp8_applyFilter iterates over the fixed region 1 ≤ x ≤ width-2,
1 ≤ y ≤ height-2 regardless of the kernel half-width n: with a 5-by-5
kernel (n = 2) it overwrites pixel (x, y) = (1, 3) of the 5-by-7 constant-7
image — a pixel within 2 of the left edge — storing the clamped truncated
sum 0 of the all-zero kernel, while the claimed border policy would leave
the sample at 7. -/
theorem bmp8_filter_modifies_border_pixel :
    ((bmp8_applyFilter c3img kernel5x5zero 5).data).getD 16 0 = 0 ∧
    c3img.data.getD 16 0 = 7 := by
  constructor
  · have h := bmp8_applyFilter_processed c3img kernel5x5zero 5 (by decide) 1 3
      (by decide) (by decide) (by decide) (by decide) (by decide) (by decide)
    have h16 : (3 : Nat) * c3img.width + 1 = 16 := by decide
    rw [h16] at h
    rw [h]
    have hsum : convSum8 c3img.data c3img.width 1 3 kernel5x5zero (5 / 2) = 0 := by
      rw [convSum8_eq_sum]
      apply Finset.sum_eq_zero
      intro ky0 _
      apply Finset.sum_eq_zero
      intro kx0 _
      rw [show kernel5x5zero = List.replicate 5 (List.replicate 5 (0 : ℚ)) from rfl,
        kernelAt_replicate_zero, mul_zero]
    rw [hsum]
    norm_num [clampTrunc, ctrunc]
  · decide

/-- C4 counterexample: on the 3-by-3 all-one image with the 3-by-3 kernel
whose center weight is 1/2, the 8-bit engine stores 0 at the interior pixel
(1, 1) — the truncation toward zero of the float sum 1/2 — while the
round-to-nearest-then-clamp of the very same kernel sum is 1. -/
theorem bmp8_filter_truncates_counterexample :
    ((bmp8_applyFilter c4img kernelCenterHalf 3).data).getD 4 0 = 0 ∧
    clampRoundSpec (convSum8 c4img.data c4img.width 1 1 kernelCenterHalf (3 / 2)) = 1 := by
  have hrange : List.range (2 * (3 / 2) + 1) = [0, 1, 2] := by decide
  have hsum : convSum8 c4img.data c4img.width 1 1 kernelCenterHalf (3 / 2) = 1 / 2 := by
    unfold convSum8
    rw [hrange]
    simp only [List.foldl_cons, List.foldl_nil]
    rw [show kernelAt kernelCenterHalf 0 0 = 0 from rfl,
        show kernelAt kernelCenterHalf 0 1 = 0 from rfl,
        show kernelAt kernelCenterHalf 0 2 = 0 from rfl,
        show kernelAt kernelCenterHalf 1 0 = 0 from rfl,
        show kernelAt kernelCenterHalf 1 1 = 1 / 2 from rfl,
        show kernelAt kernelCenterHalf 1 2 = 0 from rfl,
        show kernelAt kernelCenterHalf 2 0 = 0 from rfl,
        show kernelAt kernelCenterHalf 2 1 = 0 from rfl,
        show kernelAt kernelCenterHalf 2 2 = 0 from rfl]
    ring_nf
    rw [show c4img.data = List.replicate 9 1 from rfl,
      show c4img.width = 3 from rfl,
      getFlat_replicate 9 1 _ (by norm_num) (by norm_num)]
    norm_num
  constructor
  · have h := bmp8_applyFilter_processed c4img kernelCenterHalf 3 (by decide) 1 1
      (by decide) (by decide) (by decide) (by decide) (by decide) (by decide)
    have h4 : (1 : Nat) * c4img.width + 1 = 4 := by decide
    rw [h4] at h
    rw [h, hsum]
    unfold clampTrunc ctrunc
    rw [if_pos (by norm_num : (0 : ℚ) ≤ 1 / 2)]
    rw [show (⌊(1 / 2 : ℚ)⌋ : Int) = 0 from by
      rw [Int.floor_eq_iff]
      constructor <;> norm_num]
    decide
  · rw [hsum]
    unfold clampRoundSpec cround
    rw [if_pos (by norm_num : (0 : ℚ) ≤ 1 / 2)]
    rw [show (1 / 2 + 1 / 2 : ℚ) = 1 from by norm_num, Int.floor_one]
    decide

theorem getFlat_natCast (l : List Nat) (i : Nat) :
    getFlat l (i : Int) = l.getD i 0 := by
  unfold getFlat
  rw [if_pos (Int.natCast_nonneg i), Int.toNat_natCast]

theorem getPix_natCast (d : List (List Pixel)) (y x : Nat) :
    getPix d (y : Int) (x : Int) = getPixN d y x := by
  unfold getPix getPixN
  rw [if_pos ⟨Int.natCast_nonneg y, Int.natCast_nonneg x⟩, Int.toNat_natCast,
    Int.toNat_natCast]

/-- C4 (amended): for every interior pixel (n ≤ x < width-n, n ≤ y <
height-n) both engines compute the kernel-weighted sum of the pre-filter
snapshot, each channel independently; the 24-bit engine stores the sum
rounded to nearest and clamped to [0, 255], the 8-bit engine truncates the
float sum toward zero before clamping instead of rounding it, and the 8-bit
engine applies the formula only on its fixed region 1 ≤ x ≤ width-2,
1 ≤ y ≤ height-2: for half-width n ≥ 1 that region contains every interior
pixel (the extra region hypotheses below follow from interiority), while
for the degenerate 1-by-1 kernel (n = 0) the interior pixels on the image
edge are left byte-identical instead of receiving the formula, as the
second conjunct states for the edge pixels under every odd kernel. -/
theorem applyFilter_interior_formula :
    (∀ (img : Bmp8) (kernel : List (List ℚ)) (kernelSize n x y : Nat),
      img.dataSize = img.data.length → img.dataSize = img.width * img.height →
      kernelSize % 2 = 1 → n = kernelSize / 2 →
      n ≤ x → x + n < img.width → n ≤ y → y + n < img.height →
      1 ≤ x → x + 1 < img.width → 1 ≤ y → y + 1 < img.height →
      ((bmp8_applyFilter img kernel kernelSize).data).getD (y * img.width + x) 0
        = clampTrunc (∑ ky0 in Finset.range (2 * n + 1),
            ∑ kx0 in Finset.range (2 * n + 1),
            (img.data.getD ((y + ky0 - n) * img.width + (x + kx0 - n)) 0 : ℚ)
              * kernelAt kernel ky0 kx0)) ∧
    (∀ (img : Bmp8) (kernel : List (List ℚ)) (kernelSize x y : Nat),
      kernelSize % 2 = 1 → x < img.width → y < img.height →
      (x = 0 ∨ x + 1 = img.width ∨ y = 0 ∨ y + 1 = img.height) →
      ((bmp8_applyFilter img kernel kernelSize).data).getD (y * img.width + x) 0
        = img.data.getD (y * img.width + x) 0) ∧
    (∀ (img : Bmp24) (kernel : List (List ℚ)) (kernelSize n x y : Nat),
      img.data.length = img.height.toNat →
      (∀ row ∈ img.data, row.length = img.width.toNat) →
      kernelSize % 2 = 1 → n = kernelSize / 2 →
      n ≤ x → (x : Int) + n < img.width → n ≤ y → (y : Int) + n < img.height →
      getPixN (bmp24_applyFilter img kernel kernelSize).data y x
        = ⟨clampRoundSpec (∑ ky0 in Finset.range (2 * n + 1),
              ∑ kx0 in Finset.range (2 * n + 1),
              ((getPixN img.data (y + ky0 - n) (x + kx0 - n)).blue : ℚ)
                * kernelAt kernel ky0 kx0),
            clampRoundSpec (∑ ky0 in Finset.range (2 * n + 1),
              ∑ kx0 in Finset.range (2 * n + 1),
              ((getPixN img.data (y + ky0 - n) (x + kx0 - n)).green : ℚ)
                * kernelAt kernel ky0 kx0),
            clampRoundSpec (∑ ky0 in Finset.range (2 * n + 1),
              ∑ kx0 in Finset.range (2 * n + 1),
              ((getPixN img.data (y + ky0 - n) (x + kx0 - n)).red : ℚ)
                * kernelAt kernel ky0 kx0)⟩) := by
  refine ⟨?_, ?_, ?_⟩
  · intro img kernel kernelSize n x y hlen hsize hodd hn hx1 hx2 hy1 hy2
      hx1f hx2f hy1f hy2f
    subst hn
    have hidx : y * img.width + x < img.data.length := by
      rw [← hlen, hsize, Nat.mul_comm img.width img.height]
      exact flatIdx_lt (by omega) (by omega)
    rw [bmp8_applyFilter_processed img kernel kernelSize hodd x y (by omega)
      (by omega) (by omega) (by omega) (by omega) hidx]
    have hterm : ∀ ky0 kx0 : Nat,
        getFlat img.data (((y : Int) + (ky0 : Int) - ((kernelSize / 2 : Nat) : Int))
            * (img.width : Int)
          + ((x : Int) + (kx0 : Int) - ((kernelSize / 2 : Nat) : Int)))
          = img.data.getD ((y + ky0 - kernelSize / 2) * img.width
            + (x + kx0 - kernelSize / 2)) 0 := by
      intro ky0 kx0
      have e1 : ((y : Int) + (ky0 : Int) - ((kernelSize / 2 : Nat) : Int))
          = ((y + ky0 - kernelSize / 2 : Nat) : Int) := by omega
      have e2 : ((x : Int) + (kx0 : Int) - ((kernelSize / 2 : Nat) : Int))
          = ((x + kx0 - kernelSize / 2 : Nat) : Int) := by omega
      have e3 : ((y + ky0 - kernelSize / 2 : Nat) : Int) * (img.width : Int)
            + ((x + kx0 - kernelSize / 2 : Nat) : Int)
          = (((y + ky0 - kernelSize / 2) * img.width
            + (x + kx0 - kernelSize / 2) : Nat) : Int) := by
        push_cast
        ring
      rw [e1, e2, e3, getFlat_natCast]
    rw [convSum8_eq_sum]
    congr 1
    refine Finset.sum_congr rfl fun ky0 _ => Finset.sum_congr rfl fun kx0 _ => ?_
    rw [hterm ky0 kx0]
  · intro img kernel kernelSize x y hodd hxw hyh hedge
    unfold bmp8_applyFilter
    rw [if_neg (by omega)]
    dsimp only
    rw [List.getD_eq_getElem?_getD, List.getD_eq_getElem?_getD]
    have hnm : ∀ p ∈ loopPairs (List.range' 1 (img.height - 1 - 1))
        (List.range' 1 (img.width - 1 - 1)),
        (fun p : Nat × Nat => p.1 * img.width + p.2) p ≠ y * img.width + x := by
      intro p hp heq
      rw [mem_loopPairs] at hp
      obtain ⟨hp1, hp2⟩ := hp
      rw [List.mem_range'_1] at hp1
      rw [List.mem_range'_1] at hp2
      have hpw : p.2 < img.width := by omega
      have hinj := flatIdx_inj hpw hxw heq
      omega
    have hval := foldl_set_getElem?_not_mem
      (fun p : Nat × Nat => p.1 * img.width + p.2)
      (fun p : Nat × Nat => clampTrunc
        (convSum8 img.data img.width p.2 p.1 kernel (kernelSize / 2)))
      (loopPairs (List.range' 1 (img.height - 1 - 1))
        (List.range' 1 (img.width - 1 - 1)))
      img.data (y * img.width + x) hnm
    simp only [] at hval
    rw [hval]
  · intro img kernel kernelSize n x y hlen hrows hodd hn hx1 hx2 hy1 hy2
    subst hn
    have hylen : y < img.data.length := by rw [hlen]; omega
    have hrowmem : img.data.getD y [] ∈ img.data := by
      rw [List.getD_eq_getElem?_getD, List.getElem?_eq_getElem hylen,
        Option.getD_some]
      exact List.getElem_mem hylen
    have hxlen : x < (img.data.getD y []).length := by
      rw [hrows _ hrowmem]
      omega
    rw [bmp24_applyFilter_processed img kernel kernelSize hodd x y (by omega)
      (by omega) (by omega) (by omega) hylen hxlen]
    have hpix : ∀ ky0 kx0 : Nat,
        getPix img.data ((y : Int) + (ky0 : Int) - ((kernelSize / 2 : Nat) : Int))
            ((x : Int) + (kx0 : Int) - ((kernelSize / 2 : Nat) : Int))
          = getPixN img.data (y + ky0 - kernelSize / 2) (x + kx0 - kernelSize / 2) := by
      intro ky0 kx0
      have e1 : ((y : Int) + (ky0 : Int) - ((kernelSize / 2 : Nat) : Int))
          = ((y + ky0 - kernelSize / 2 : Nat) : Int) := by omega
      have e2 : ((x : Int) + (kx0 : Int) - ((kernelSize / 2 : Nat) : Int))
          = ((x + kx0 - kernelSize / 2 : Nat) : Int) := by omega
      rw [e1, e2, getPix_natCast]
    unfold filteredPixel
    rw [convSum24_eq_sum]
    dsimp only
    rw [clamp_uint8_eq_clampRoundSpec, clamp_uint8_eq_clampRoundSpec,
      clamp_uint8_eq_clampRoundSpec]
    have hsums : ∀ f : Pixel → Nat,
        (∑ ky0 in Finset.range (2 * (kernelSize / 2) + 1),
          ∑ kx0 in Finset.range (2 * (kernelSize / 2) + 1),
          ((f (getPix img.data
              ((y : Int) + (ky0 : Int) - ((kernelSize / 2 : Nat) : Int))
              ((x : Int) + (kx0 : Int) - ((kernelSize / 2 : Nat) : Int))) : ℚ))
            * kernelAt kernel ky0 kx0)
        = ∑ ky0 in Finset.range (2 * (kernelSize / 2) + 1),
          ∑ kx0 in Finset.range (2 * (kernelSize / 2) + 1),
          ((f (getPixN img.data (y + ky0 - kernelSize / 2)
              (x + kx0 - kernelSize / 2)) : ℚ))
            * kernelAt kernel ky0 kx0 := by
      intro f
      refine Finset.sum_congr rfl fun ky0 _ => Finset.sum_congr rfl fun kx0 _ => ?_
      rw [hpix ky0 kx0]
    rw [hsums Pixel.blue, hsums Pixel.green, hsums Pixel.red]

/-- C4 witness: the amended interior formula instantiated at (1, 1) of the
concrete 3-by-3 images with the center-1/2 kernel, and the 8-bit edge
preservation at pixel (0, 0) under a 1-by-1 kernel. -/
theorem applyFilter_interior_formula_witness :
    (((bmp8_applyFilter c4img kernelCenterHalf 3).data).getD (1 * c4img.width + 1) 0
      = clampTrunc (∑ ky0 in Finset.range (2 * 1 + 1),
          ∑ kx0 in Finset.range (2 * 1 + 1),
          (c4img.data.getD ((1 + ky0 - 1) * c4img.width + (1 + kx0 - 1)) 0 : ℚ)
            * kernelAt kernelCenterHalf ky0 kx0)) ∧
    (((bmp8_applyFilter c4img kernelCenterHalf 1).data).getD (0 * c4img.width + 0) 0
      = c4img.data.getD (0 * c4img.width + 0) 0) ∧
    (getPixN (bmp24_applyFilter c4img24 kernelCenterHalf 3).data 1 1
      = ⟨clampRoundSpec (∑ ky0 in Finset.range (2 * 1 + 1),
            ∑ kx0 in Finset.range (2 * 1 + 1),
            ((getPixN c4img24.data (1 + ky0 - 1) (1 + kx0 - 1)).blue : ℚ)
              * kernelAt kernelCenterHalf ky0 kx0),
          clampRoundSpec (∑ ky0 in Finset.range (2 * 1 + 1),
            ∑ kx0 in Finset.range (2 * 1 + 1),
            ((getPixN c4img24.data (1 + ky0 - 1) (1 + kx0 - 1)).green : ℚ)
              * kernelAt kernelCenterHalf ky0 kx0),
          clampRoundSpec (∑ ky0 in Finset.range (2 * 1 + 1),
            ∑ kx0 in Finset.range (2 * 1 + 1),
            ((getPixN c4img24.data (1 + ky0 - 1) (1 + kx0 - 1)).red : ℚ)
              * kernelAt kernelCenterHalf ky0 kx0)⟩) :=
  ⟨applyFilter_interior_formula.1 c4img kernelCenterHalf 3 1 1 1 (by decide)
      (by decide) (by decide) (by decide) (by decide) (by decide) (by decide)
      (by decide) (by decide) (by decide) (by decide) (by decide),
   applyFilter_interior_formula.2.1 c4img kernelCenterHalf 1 0 0 (by decide)
      (by decide) (by decide) (by decide),
   applyFilter_interior_formula.2.2 c4img24 kernelCenterHalf 3 1 1 1 (by decide)
      (by decide) (by decide) (by decide) (by decide) (by decide) (by decide)
      (by decide)⟩

set_option maxRecDepth 100000 in
/-- C1: bmp24_saveImage writes 54 into the file's data-offset field but
bmp24_writePixelData seeks to the stale img->header.offset (here 122, as
carried by an image loaded from a BMP with a 108-byte info header) and
writes the pixel rows there; loading the saved file reads the pixels from
offset 54 and finds the zero-filled gap, so the round trip loses the pixel
data: the well-formed 1-by-1 image with pixel (1, 2, 3) comes back as
(0, 0, 0). -/
theorem bmp24_roundtrip_stale_offset_eval :
    c1img.wf ∧
    (bmp24_loadImage (bmp24_saveImage c1img)).map Bmp24.data = some [[⟨0, 0, 0⟩]] ∧
    c1img.data = [[⟨1, 2, 3⟩]] ∧ [[(⟨0, 0, 0⟩ : Pixel)]] ≠ [[(⟨1, 2, 3⟩ : Pixel)]] := by
  exact ⟨by decide, by decide, rfl, by decide⟩

/-- C5: the grayscale equalization remap table maps intensity i to
round((cdf[i] - cdf_min) / (numPixels - cdf_min) * 255) whenever
cdf[i] > 0 and to 0 when cdf[i] = 0; when numPixels = cdf_min (a single
intensity fills the whole image) the table is the identity, and equalizing
a uniform image leaves it unchanged. -/
theorem bmp8_equalize_remap_spec :
    (∀ (hist : List Nat) (N : Nat), hist.length = 256 → hist.sum = N → 0 < N →
      N < 2 ^ 32 → firstPositive (partialSums hist 0) ≠ N →
      ∃ table, bmp8_computeCDF hist N = some table ∧
        ∀ i : Nat, i < 256 →
          (0 < (partialSums hist 0).getD i 0 →
            table.getD i 0 = (cround
              ((((partialSums hist 0).getD i 0 : ℚ)
                  - (firstPositive (partialSums hist 0) : ℚ))
                / ((N : ℚ) - (firstPositive (partialSums hist 0) : ℚ)) * 255)).toNat) ∧
          ((partialSums hist 0).getD i 0 = 0 → table.getD i 0 = 0)) ∧
    (∀ (hist : List Nat) (N : Nat), 0 < N → N < 2 ^ 32 →
      firstPositive (partialSums hist 0) = N →
      bmp8_computeCDF hist N = some (List.range 256)) ∧
    (∀ (img : Bmp8) (v : Nat), img.dataSize = img.data.length → v < 256 →
      img.data = List.replicate (img.width * img.height) v →
      0 < img.width * img.height → img.width * img.height < 2 ^ 32 →
      bmp8_equalize img = img) := by
  refine ⟨?_, ?_, ?_⟩
  · intro hist N hlen hsum hN hlt hne
    have hmle : firstPositive (partialSums hist 0) ≤ N := by
      have h2 := firstPositive_le_sum hist 0
      omega
    have hmlt : firstPositive (partialSums hist 0) < N := by omega
    have husubN : usub N (firstPositive (partialSums hist 0))
        = N - firstPositive (partialSums hist 0) := usub_eq_sub hmle hlt
    unfold bmp8_computeCDF
    rw [if_neg (by omega)]
    dsimp only
    rw [if_neg (by rw [husubN]; omega)]
    refine ⟨_, rfl, ?_⟩
    intro i hi
    constructor
    · intro hpos
      rw [List.getD_eq_getElem?_getD, List.getElem?_map, List.getElem?_range hi]
      simp only [Option.map_some', Option.getD_some]
      rw [if_neg (by omega)]
      have hcle : (partialSums hist 0).getD i 0 ≤ N := by
        have := partialSums_getD_le_sum hist 0 i
        omega
      have hmlec : firstPositive (partialSums hist 0)
          ≤ (partialSums hist 0).getD i 0 :=
        firstPositive_le_getD hist 0 i (by omega) hpos
      have husubc : usub ((partialSums hist 0).getD i 0)
            (firstPositive (partialSums hist 0))
          = (partialSums hist 0).getD i 0 - firstPositive (partialSums hist 0) :=
        usub_eq_sub hmlec (by omega)
      rw [husubN, husubc]
      have harg : ((((partialSums hist 0).getD i 0
              - firstPositive (partialSums hist 0) : Nat)) : ℚ)
            * (255 / ((N - firstPositive (partialSums hist 0) : Nat) : ℚ))
          = (((partialSums hist 0).getD i 0 : ℚ)
              - (firstPositive (partialSums hist 0) : ℚ))
            / ((N : ℚ) - (firstPositive (partialSums hist 0) : ℚ)) * 255 := by
        rw [Nat.cast_sub hmlec, Nat.cast_sub hmle]
        ring
      rw [harg]
      have hden : (0 : ℚ) < (N : ℚ) - (firstPositive (partialSums hist 0) : ℚ) :=
        sub_pos.mpr (by exact_mod_cast hmlt)
      have hnum : (0 : ℚ) ≤ (((partialSums hist 0).getD i 0 : ℚ)
          - (firstPositive (partialSums hist 0) : ℚ)) :=
        sub_nonneg.mpr (by exact_mod_cast hmlec)
      have hq0 : (0 : ℚ) ≤ (((partialSums hist 0).getD i 0 : ℚ)
            - (firstPositive (partialSums hist 0) : ℚ))
          / ((N : ℚ) - (firstPositive (partialSums hist 0) : ℚ)) * 255 :=
        mul_nonneg (div_nonneg hnum hden.le) (by norm_num)
      have hd1 : (((partialSums hist 0).getD i 0 : ℚ)
            - (firstPositive (partialSums hist 0) : ℚ))
          / ((N : ℚ) - (firstPositive (partialSums hist 0) : ℚ)) ≤ 1 :=
        (div_le_one hden).mpr (by
          have : ((partialSums hist 0).getD i 0 : ℚ) ≤ (N : ℚ) := by
            exact_mod_cast hcle
          linarith)
      have hq255 : (((partialSums hist 0).getD i 0 : ℚ)
            - (firstPositive (partialSums hist 0) : ℚ))
          / ((N : ℚ) - (firstPositive (partialSums hist 0) : ℚ)) * 255 ≤ 255 := by
        calc (((partialSums hist 0).getD i 0 : ℚ)
              - (firstPositive (partialSums hist 0) : ℚ))
            / ((N : ℚ) - (firstPositive (partialSums hist 0) : ℚ)) * 255
            ≤ 1 * 255 := mul_le_mul_of_nonneg_right hd1 (by norm_num)
          _ = 255 := one_mul 255
      have hrle := cround_le_of_le _ hq0 hq255
      rw [if_neg (by omega)]
    · intro hzero
      rw [List.getD_eq_getElem?_getD, List.getElem?_map, List.getElem?_range hi]
      simp only [Option.map_some', Option.getD_some]
      rw [if_pos hzero]
  · intro hist N hN hlt hfp
    unfold bmp8_computeCDF
    rw [if_neg (by omega)]
    dsimp only
    rw [hfp, if_pos (by rw [usub_eq_sub le_rfl hlt]; omega)]
  · intro img v hlen hv256 hdata hpos hlt
    have hN : img.width * img.height % 2 ^ 32 = img.width * img.height :=
      Nat.mod_eq_of_lt hlt
    have htake : img.data.take img.dataSize = img.data := by
      rw [hlen]
      exact List.take_length img.data
    have hgd : (List.replicate 256 (0 : Nat)).getD v 0 = 0 := by
      rw [List.getD_eq_getElem?_getD, List.getElem?_replicate, if_pos hv256]
      rfl
    have hhist : bmp8_computeHistogram img
        = (List.replicate 256 0).set v (img.width * img.height) := by
      unfold bmp8_computeHistogram
      rw [htake, hdata, hist_fold_replicate, hgd, Nat.zero_add]
    have hfp : firstPositive (partialSums (bmp8_computeHistogram img) 0)
        = img.width * img.height := by
      rw [hhist, replicate_set_eq_append 256 v (img.width * img.height) hv256]
      exact firstPositive_prefix_zeros _ hpos v _
    have hcdf : bmp8_computeCDF (bmp8_computeHistogram img)
          (img.width * img.height) = some (List.range 256) := by
      unfold bmp8_computeCDF
      rw [if_neg (by omega)]
      dsimp only
      rw [hfp, if_pos (by rw [usub_eq_sub le_rfl hlt]; omega)]
    have hmap : mapUpTo (fun u => (List.range 256).getD u 0 % 256)
        img.dataSize img.data = img.data := by
      apply mapUpTo_congr_id
      intro a ha
      have hav : a = v := by
        rw [hdata] at ha
        exact List.eq_of_mem_replicate ha
      subst hav
      rw [getD_range_of_lt 256 a hv256, Nat.mod_eq_of_lt hv256]
    unfold bmp8_equalize
    dsimp only
    rw [hN, if_neg (by omega), hcdf]
    dsimp only
    rw [hmap]

set_option maxRecDepth 40000 in
/-- C5 witness: the remap-table characterization instantiated at a
histogram with one pixel at intensity 0 and one at 255, and the uniform
2-by-2 image of intensity 10 left unchanged by equalization. -/
theorem bmp8_equalize_remap_spec_witness :
    (∃ table, bmp8_computeCDF c5hist 2 = some table ∧
      ∀ i : Nat, i < 256 →
        (0 < (partialSums c5hist 0).getD i 0 →
          table.getD i 0 = (cround
            ((((partialSums c5hist 0).getD i 0 : ℚ)
                - (firstPositive (partialSums c5hist 0) : ℚ))
              / (((2 : Nat) : ℚ) - (firstPositive (partialSums c5hist 0) : ℚ))
              * 255)).toNat) ∧
        ((partialSums c5hist 0).getD i 0 = 0 → table.getD i 0 = 0)) ∧
    bmp8_equalize c5img = c5img :=
  ⟨bmp8_equalize_remap_spec.1 c5hist 2 (by decide) (by decide) (by decide)
      (by decide) (by decide),
   bmp8_equalize_remap_spec.2.2 c5img 10 (by decide) (by decide) (by decide)
      (by decide) (by decide)⟩
